import Mathlib

/-! Trapezoidal-rule integrators: sequential, MPI and OpenMP variants.

A shallow embedding of `riemann.c`, `riemann_mpi.c` and `riemann_omp.c`.

* C `double` values are modelled by `ℚ` (exact arithmetic); C `int` values by `ℤ`,
  with `/` and `%` on `int` rendered by the truncating `Int.tdiv` and `Int.tmod`.
  Sums and products of `int`s are taken in `ℤ`; the one narrowing conversion of the
  sources, `long` to `int` for the parsed thread count, is `wrap32`, and `int_mul` is the
  32-bit product the exact products are compared with.
* Every counted `for` loop of the sources is an instance of `forLoop`.
* The global `int N` of each file is a parameter of the functions that read it;
  the constant the sources initialise it with is kept as `N` in each namespace.
* The integrand `h_` (the sine) is not used by any entry point and has no
  rational model; it is left out.
-/

/-- The C loop `for (int i = i0; i < hi; i++) s = body(i, s);`, started at `i = i0`
with state `s`; it returns the state on exit. -/
def forLoop {σ : Type} (body : ℤ → σ → σ) (hi : ℤ) (i : ℤ) (s : σ) : σ :=
  if i < hi then forLoop body hi (i + 1) (body i s) else s
termination_by (hi - i).toNat
decreasing_by omega

/-! ## riemann.c -/

namespace Riemann

/-- Global `int N = 100000000;` of riemann.c. -/
def N : ℤ := 100000000

/-- The integrand `f` of riemann.c: `x * x`. -/
def f (x : ℚ) : ℚ := x * x

/-- The integrand `g` of riemann.c: `2 * x * x * x`. -/
def g (x : ℚ) : ℚ := 2 * x * x * x

/-- Function `trapezoidal_sum(param_a, param_b)` of riemann.c, reading the global `N`. -/
def trapezoidal_sum (N : ℤ) (param_a param_b : ℚ) : ℚ :=
  let h : ℚ := (param_b - param_a) / (N : ℚ)
  let sum : ℚ := 0.5 * (f param_a + f param_b)
  let sum : ℚ := forLoop (fun i sum => sum + f (param_a + (i : ℚ) * h)) N 1 sum
  sum * h

end Riemann

/-! ## riemann_mpi.c -/

namespace RiemannMpi

/-- Global `int N = 100000000;` of riemann_mpi.c. -/
def N : ℤ := 100000000

/-- The integrand `f` of riemann_mpi.c: `x * x`. -/
def f (x : ℚ) : ℚ := x * x

/-- The integrand `g` of riemann_mpi.c: `2 * x * x * x`. -/
def g (x : ℚ) : ℚ := 2 * x * x * x

/-- Function `trapezoidal_sum(param_a, param_b, local_n, H)` of riemann_mpi.c. -/
def trapezoidal_sum (param_a param_b : ℚ) (local_n : ℤ) (H : ℚ) : ℚ :=
  let sum : ℚ := 0.5 * (f param_a + f param_b)
  let sum : ℚ := forLoop (fun i sum => sum + f (param_a + (i : ℚ) * H)) local_n 1 sum
  sum * H

/-- Step width of `main`: `double H = (PARAM_B - PARAM_A) / N;`. -/
def H (N : ℤ) (PARAM_A PARAM_B : ℚ) : ℚ := (PARAM_B - PARAM_A) / (N : ℚ)

/-- Trapezoid count of one rank in `main`:
`int LOCAL_N = N / CLUSTER_SIZE; if (PROCESS_RANK < N % CLUSTER_SIZE) LOCAL_N++;`. -/
def LOCAL_N (N CLUSTER_SIZE PROCESS_RANK : ℤ) : ℤ :=
  let LOCAL_N : ℤ := N.tdiv CLUSTER_SIZE
  if PROCESS_RANK < N.tmod CLUSTER_SIZE then LOCAL_N + 1 else LOCAL_N

/-- Lower bound of one rank in `main`:
`PARAM_A + PROCESS_RANK * (N / CLUSTER_SIZE) * H
  + (PROCESS_RANK < N % CLUSTER_SIZE ? PROCESS_RANK * H : (N % CLUSTER_SIZE) * H)`. -/
def LOCAL_A (N CLUSTER_SIZE PROCESS_RANK : ℤ) (PARAM_A PARAM_B : ℚ) : ℚ :=
  PARAM_A + ((PROCESS_RANK * N.tdiv CLUSTER_SIZE : ℤ) : ℚ) * H N PARAM_A PARAM_B
    + (if PROCESS_RANK < N.tmod CLUSTER_SIZE
        then (PROCESS_RANK : ℚ) * H N PARAM_A PARAM_B
        else ((N.tmod CLUSTER_SIZE : ℤ) : ℚ) * H N PARAM_A PARAM_B)

/-- Upper bound of one rank in `main`: `LOCAL_B = LOCAL_A + LOCAL_N * H;`. -/
def LOCAL_B (N CLUSTER_SIZE PROCESS_RANK : ℤ) (PARAM_A PARAM_B : ℚ) : ℚ :=
  LOCAL_A N CLUSTER_SIZE PROCESS_RANK PARAM_A PARAM_B
    + (LOCAL_N N CLUSTER_SIZE PROCESS_RANK : ℚ) * H N PARAM_A PARAM_B

/-- Partial result of one rank in `main`:
`LOCAL_SUM = trapezoidal_sum(LOCAL_A, LOCAL_B, LOCAL_N, H);`. -/
def LOCAL_SUM (N CLUSTER_SIZE PROCESS_RANK : ℤ) (PARAM_A PARAM_B : ℚ) : ℚ :=
  trapezoidal_sum (LOCAL_A N CLUSTER_SIZE PROCESS_RANK PARAM_A PARAM_B)
    (LOCAL_B N CLUSTER_SIZE PROCESS_RANK PARAM_A PARAM_B)
    (LOCAL_N N CLUSTER_SIZE PROCESS_RANK) (H N PARAM_A PARAM_B)

/-- Reduction at rank 0 in `main`: `GLOBAL_SUM = LOCAL_SUM;` followed by
`for (int i = 1; i < CLUSTER_SIZE; i++) GLOBAL_SUM += received_sum;`, where the value
received from rank `i` is the `LOCAL_SUM` that rank `i` sent. -/
def GLOBAL_SUM (N CLUSTER_SIZE : ℤ) (PARAM_A PARAM_B : ℚ) : ℚ :=
  let GLOBAL_SUM : ℚ := LOCAL_SUM N CLUSTER_SIZE 0 PARAM_A PARAM_B
  forLoop (fun i GLOBAL_SUM => GLOBAL_SUM + LOCAL_SUM N CLUSTER_SIZE i PARAM_A PARAM_B)
    CLUSTER_SIZE 1 GLOBAL_SUM

end RiemannMpi

/-! ## C library and runtime, as seen by the `main` functions -/

/-- Conversion of a `long` to `int` (two's-complement truncation to 32 bits), as in
`int OMP_NUM_THREADS = strtol(argv[3], &endptr, 10);`. -/
def wrap32 (v : ℤ) : ℤ := (v + 2 ^ 31) % 2 ^ 32 - 2 ^ 31

/-- One variadic argument of a `printf` call. -/
inductive PrintfArg where
  | int (v : ℤ)
  | str (s : String)
  | dbl (v : ℚ)
deriving DecidableEq

/-- One call `printf(fmt, args...)`: the format string and the values passed for its
conversions, in order. -/
structure Printf where
  fmt : String
  args : List PrintfArg
deriving DecidableEq

/-- What the C library and the OpenMP runtime supply to a run.

* `strtod s` and `strtol s` (base 10) give the converted value and the string `endptr`
  is left pointing at (the unconverted rest of `s`).
* `team n` lists the thread numbers (`omp_get_thread_num()`) of the threads that execute
  a parallel region after `omp_set_num_threads(n)`, in the order in which they pass the
  critical section.
* `elapsed` is the measured wall-clock difference `END_TIME - START_TIME`. -/
structure Env where
  strtod : String → ℚ × String
  strtol : String → ℤ × String
  team : ℤ → List ℤ
  elapsed : ℚ

/-- C `int` multiplication on a 32-bit two's-complement machine: the product in `ℤ`, wrapped
to 32 bits. It is the operation behind `PROCESS_RANK * (N / CLUSTER_SIZE)` in riemann_mpi.c
and `omp_get_thread_num() * local_n` in riemann_omp.c. -/
def int_mul (x y : ℤ) : ℤ := wrap32 (x * y)

/-- How `main` of riemann.c, and `main` of riemann_mpi.c at rank 0, return: the exit status,
the `printf` calls made, and the value the integration produced (`none` when control never
reached the call of `trapezoidal_sum`). -/
structure Returned where
  status : ℤ
  stdout : List Printf
  result : Option ℚ
deriving DecidableEq

/-! ## Entry points of riemann.c and riemann_mpi.c -/

namespace Riemann

/-- Function `main(argc, argv)` of riemann.c, with `argc = argv.length`. -/
def main (env : Env) (argv : List String) : Returned :=
  let argc : ℤ := argv.length
  if argc < 3 then
    ⟨1,
      [⟨"\nNot enough arguments passed: %d\n", [.int argc]⟩,
       ⟨"Usage: %s <limit a> <limit b>\n", [.str (argv.getD 0 "")]⟩],
      none⟩
  else
    let (PARAM_A, endptr) := env.strtod (argv.getD 1 "")
    if endptr ≠ "" then
      ⟨1, [⟨"Invalid first argument: %s. Please enter a number.\n", [.str (argv.getD 1 "")]⟩],
        none⟩
    else
      let (PARAM_B, endptr) := env.strtod (argv.getD 2 "")
      if endptr ≠ "" then
        ⟨1, [⟨"Invalid second argument: %s. Please enter a number.\n", [.str (argv.getD 2 "")]⟩],
          none⟩
      else
        let sum_result : ℚ := trapezoidal_sum N PARAM_A PARAM_B
        ⟨0,
          [⟨"With n = %d, the approximation of the integral from point a = %.2f to point b = %.2f is %.6f\n",
              [.int N, .dbl PARAM_A, .dbl PARAM_B, .dbl sum_result]⟩,
           ⟨"Execution time: %.6f seconds\n", [.dbl env.elapsed]⟩],
          some sum_result⟩

end Riemann

namespace RiemannMpi

/-- The reduction at rank 0 in `main` of riemann_mpi.c, for arbitrary received values:
`GLOBAL_SUM = LOCAL_SUM;` then, for `i = 1, ..., CLUSTER_SIZE - 1` in this order,
`MPI_Recv(&received_sum, ..., i, ...); GLOBAL_SUM += received_sum;`, where `received_sum i`
is the value rank `i` sent. -/
def gather (LOCAL_SUM : ℚ) (received_sum : ℤ → ℚ) (CLUSTER_SIZE : ℤ) : ℚ :=
  let GLOBAL_SUM : ℚ := LOCAL_SUM
  forLoop (fun i GLOBAL_SUM => GLOBAL_SUM + received_sum i) CLUSTER_SIZE 1 GLOBAL_SUM

/-- Function `main(argc, argv)` of riemann_mpi.c as run by rank 0 (`PROCESS_RANK == 0`) of a
communicator of `CLUSTER_SIZE` processes, with `argc = argv.length`; the other ranks send the
`LOCAL_SUM` they compute from the broadcast `PARAM_A`, `PARAM_B` and `N`. -/
def main (env : Env) (CLUSTER_SIZE : ℤ) (argv : List String) : Returned :=
  let argc : ℤ := argv.length
  if argc < 3 then
    ⟨1,
      [⟨"\nNot enough arguments passed: %d\n", [.int argc]⟩,
       ⟨"Usage: %s <limit a> <limit b>\n", [.str (argv.getD 0 "")]⟩],
      none⟩
  else
    let (PARAM_A, endptr) := env.strtod (argv.getD 1 "")
    if endptr ≠ "" then
      ⟨1, [⟨"Invalid first argument: %s. Please enter a number.\n", [.str (argv.getD 1 "")]⟩],
        none⟩
    else
      let (PARAM_B, endptr) := env.strtod (argv.getD 2 "")
      if endptr ≠ "" then
        ⟨1, [⟨"Invalid second argument: %s. Please enter a number.\n", [.str (argv.getD 2 "")]⟩],
          none⟩
      else
        let GLOBAL_SUM : ℚ := GLOBAL_SUM N CLUSTER_SIZE PARAM_A PARAM_B
        ⟨0,
          [⟨"With n = %d, the approximation of the integral from a = %.2f to b = %.2f is %.6f\n",
              [.int N, .dbl PARAM_A, .dbl PARAM_B, .dbl GLOBAL_SUM]⟩,
           ⟨"Execution time: %.6f seconds\n", [.dbl env.elapsed]⟩],
          some GLOBAL_SUM⟩

end RiemannMpi

/-! ## riemann_omp.c -/

namespace RiemannOmp

/-- Global `int N = 100000000;` of riemann_omp.c. -/
def N : ℤ := 100000000

/-- The integrand `f` of riemann_omp.c: `x * x`. -/
def f (x : ℚ) : ℚ := x * x

/-- The integrand `g` of riemann_omp.c: `2 * x * x * x`. -/
def g (x : ℚ) : ℚ := 2 * x * x * x

/-- Step width in `trapezoidal_sum` of riemann_omp.c: `double h = (param_b - param_a) / N;`. -/
def h (N : ℤ) (param_a param_b : ℚ) : ℚ := (param_b - param_a) / (N : ℚ)

/-- Start point of a thread's segment in `trapezoidal_sum` of riemann_omp.c:
`double local_a = param_a + (omp_get_thread_num() * local_n * h);`. -/
def local_a (N thread_num : ℤ) (param_a param_b : ℚ) (local_n : ℤ) : ℚ :=
  param_a + ((thread_num * local_n : ℤ) : ℚ) * h N param_a param_b

/-- End point of a thread's segment as first computed in `trapezoidal_sum` of riemann_omp.c:
`double local_b = local_a + (local_n * h);`. -/
def local_b_computed (N thread_num : ℤ) (param_a param_b : ℚ) (local_n : ℤ) : ℚ :=
  local_a N thread_num param_a param_b local_n + (local_n : ℚ) * h N param_a param_b

/-- End point of a thread's segment after the adjustment
`if (local_b > param_b) local_b = param_b;`. -/
def local_b (N thread_num : ℤ) (param_a param_b : ℚ) (local_n : ℤ) : ℚ :=
  if local_b_computed N thread_num param_a param_b local_n > param_b then param_b
  else local_b_computed N thread_num param_a param_b local_n

/-- The local variable `local_sum` of `trapezoidal_sum(param_a, param_b, local_n)` in
riemann_omp.c when thread `thread_num` reaches the critical section. -/
def local_sum (N thread_num : ℤ) (param_a param_b : ℚ) (local_n : ℤ) : ℚ :=
  let local_sum : ℚ := 0.0
  let local_sum : ℚ := local_sum
    + 0.5 * (f (local_a N thread_num param_a param_b local_n)
              + f (local_b N thread_num param_a param_b local_n))
  let local_sum : ℚ :=
    forLoop
      (fun i local_sum =>
        local_sum + f (local_a N thread_num param_a param_b local_n
                        + (i : ℚ) * h N param_a param_b))
      local_n 1 local_sum
  local_sum * h N param_a param_b

/-- Function `trapezoidal_sum(param_a, param_b, local_n)` of riemann_omp.c run by thread
`thread_num`: its effect on the global `sum_result` (`sum_result += local_sum;` inside the
critical section). -/
def trapezoidal_sum (N thread_num : ℤ) (param_a param_b : ℚ) (local_n : ℤ)
    (sum_result : ℚ) : ℚ :=
  sum_result + local_sum N thread_num param_a param_b local_n

/-- The parallel region of `main`: every thread of the team calls
`trapezoidal_sum(PARAM_A, PARAM_B, LOCAL_N)`; the critical sections are serialised in the
order of the list `team`. -/
def parallel_region (N : ℤ) (team : List ℤ) (PARAM_A PARAM_B : ℚ) (LOCAL_N : ℤ)
    (sum_result : ℚ) : ℚ :=
  team.foldl
    (fun sum_result thread_num => trapezoidal_sum N thread_num PARAM_A PARAM_B LOCAL_N sum_result)
    sum_result

/-- Thread numbers `0, 1, ..., T-1` of a team of `T` threads. -/
def threads (T : ℤ) : List ℤ := (List.range T.toNat).map (fun t => (t : ℤ))

/-- Final value of the global `sum_result` (initialised to `0.0`) after the parallel region
of `main` has been run by threads `0..T-1` with `LOCAL_N = N / OMP_NUM_THREADS`. -/
def final_sum_result (N OMP_NUM_THREADS : ℤ) (PARAM_A PARAM_B : ℚ) : ℚ :=
  parallel_region N (threads OMP_NUM_THREADS) PARAM_A PARAM_B (N.tdiv OMP_NUM_THREADS) 0.0

/-- How a run of `main` ends. `exited` records the exit status, the `printf` calls made, the
value of the global `sum_result` at that point and whether the parallel region was entered;
`fault` is the integer division by zero in `N % OMP_NUM_THREADS`. -/
inductive Outcome where
  | exited (status : ℤ) (stdout : List Printf) (sum_result : ℚ) (entered_parallel : Bool)
  | fault
deriving DecidableEq

/-- Function `main(argc, argv)` of riemann_omp.c, with `argc = argv.length`. -/
def main (env : Env) (argv : List String) : Outcome :=
  let sum_result : ℚ := 0.0
  let argc : ℤ := argv.length
  if argc < 4 then
    .exited 1
      [⟨"\nNot enough arguments passed: %d\n", [.int argc]⟩,
       ⟨"Usage: %s <limit a> <limit b> <threads>\n", [.str (argv.getD 0 "")]⟩]
      sum_result false
  else
    let (PARAM_A, endptr) := env.strtod (argv.getD 1 "")
    if endptr ≠ "" then
      .exited 1
        [⟨"Invalid first argument: %s. Please enter a number.\n", [.str (argv.getD 1 "")]⟩]
        sum_result false
    else
      let (PARAM_B, endptr) := env.strtod (argv.getD 2 "")
      if endptr ≠ "" then
        .exited 1
          [⟨"Invalid second argument: %s. Please enter a number.\n", [.str (argv.getD 2 "")]⟩]
          sum_result false
      else
        let (parsed, endptr) := env.strtol (argv.getD 3 "")
        let OMP_NUM_THREADS : ℤ := wrap32 parsed
        if endptr ≠ "" then
          .exited 1
            [⟨"Invalid third argument: %s. Please enter a number.\n", [.str (argv.getD 3 "")]⟩]
            sum_result false
        else if OMP_NUM_THREADS = 0 then
          .fault
        else if N.tmod OMP_NUM_THREADS ≠ 0 then
          .exited 1
            [⟨"The number of trapezoids (N) must be divisible by the number of threads.\n", []⟩]
            sum_result false
        else
          let LOCAL_N : ℤ := N.tdiv OMP_NUM_THREADS
          let sum_result : ℚ :=
            parallel_region N (env.team OMP_NUM_THREADS) PARAM_A PARAM_B LOCAL_N sum_result
          .exited 0
            [⟨"With n = %d, the approximation of the integral from point a = %.2f to point b = %.2f is %.6f\n",
                [.int N, .dbl PARAM_A, .dbl PARAM_B, .dbl sum_result]⟩,
             ⟨"Execution time: %.6f seconds\n", [.dbl env.elapsed]⟩]
            sum_result true

end RiemannOmp

namespace RiemannOmp

/-- The critical sections of riemann_omp.c for arbitrary partial results: one
`sum_result += local_sum;` per thread, in the order of the list `local_sums`. -/
def critical_sections (sum_result : ℚ) (local_sums : List ℚ) : ℚ :=
  local_sums.foldl (fun sum_result local_sum => sum_result + local_sum) sum_result

end RiemannOmp

/-! ## A concrete environment for evaluating runs -/

namespace Sample

/-- Reads leading decimal digits, accumulating their value; returns it with the rest. -/
def digits : List Char → ℤ → ℤ × List Char
  | [], acc => (acc, [])
  | c :: cs, acc =>
    if c.isDigit then digits cs (acc * 10 + ((c.toNat : ℤ) - 48)) else (acc, c :: cs)

/-- Decimal `strtol` on strings of the shape `[-]digits rest`; a string with no leading
number converts to `0` and is left whole. -/
def strtol (s : String) : ℤ × String :=
  match s.data with
  | [] => (0, s)
  | '-' :: c :: cs =>
    if c.isDigit then ((- (digits (c :: cs) 0).1), String.mk (digits (c :: cs) 0).2) else (0, s)
  | c :: cs =>
    if c.isDigit then ((digits (c :: cs) 0).1, String.mk (digits (c :: cs) 0).2) else (0, s)

/-- Conversion `strtod` restricted to the integer-valued decimal strings `strtol` reads. -/
def strtod (s : String) : ℚ × String := (((strtol s).1 : ℚ), (strtol s).2)

/-- An environment whose runtime grants the requested number of threads (one thread when the
request is not positive) and serialises the critical sections by thread number. -/
def env : Env where
  strtod := strtod
  strtol := strtol
  team := fun n => if 0 < n then RiemannOmp.threads n else [0]
  elapsed := 0

end Sample

/-! ## The partitioner as the specification words it -/

namespace Spec

/-- Number of trapezoids before worker `i`, in the specification's words:
`i * baseN + min(i, remainder)` with `baseN = N / W` (integer division) and
`remainder = N mod W`. -/
def offset (N W i : ℤ) : ℤ := i * (N / W) + min i (N % W)

/-- Start of worker `i`, in the specification's words:
`localA = a + h * (i * baseN + min(i, remainder))` with `h = (b - a) / N`. -/
def localA (a b : ℚ) (N W i : ℤ) : ℚ := a + (b - a) / (N : ℚ) * ((offset N W i : ℤ) : ℚ)

end Spec

namespace Spec

/-- An argument is a fully-parseable real number when `strtod` converts a non-empty part of
it and leaves nothing unconverted. -/
def fully_parseable (env : Env) (arg : String) : Prop :=
  (env.strtod arg).2 = "" ∧ (env.strtod arg).2 ≠ arg

/-- The stdout contract's result line, as a `printf` format:
`With n = <N>, the approximation of the integral from point a = <a:.2f> to point b = <b:.2f>
is <result:.6f>`. -/
def result_line : String :=
  "With n = %d, the approximation of the integral from point a = %.2f to point b = %.2f is %.6f\n"

/-- The stdout contract's timing line, as a `printf` format:
`Execution time: <seconds:.6f> seconds`. -/
def time_line : String := "Execution time: %.6f seconds\n"

end Spec

/-! ## Loop lemmas -/

theorem forLoop_step {σ : Type} (body : ℤ → σ → σ) (hi i : ℤ) (s : σ) (h : i < hi) :
    forLoop body hi i s = forLoop body hi (i + 1) (body i s) := by
  rw [forLoop, if_pos h]

theorem forLoop_done {σ : Type} (body : ℤ → σ → σ) (hi i : ℤ) (s : σ) (h : hi ≤ i) :
    forLoop body hi i s = s := by
  rw [forLoop, if_neg (not_lt.mpr h)]

/-- An accumulating loop adds the terms `g i, g (i+1), ..., g (hi-1)` to its start value. -/
theorem forLoop_add_eq (g : ℤ → ℚ) (hi : ℤ) :
    ∀ (n : ℕ) (i : ℤ) (s : ℚ), (hi - i).toNat = n →
      forLoop (fun k acc => acc + g k) hi i s = s + ∑ k in Finset.range n, g (i + (k : ℤ)) := by
  intro n
  induction n with
  | zero =>
    intro i s hn
    rw [forLoop_done _ _ _ _ (by omega)]
    simp
  | succ n ih =>
    intro i s hn
    rw [forLoop_step _ _ _ _ (by omega), ih (i + 1) (s + g i) (by omega),
      Finset.sum_range_succ']
    have hterm : ∀ k : ℕ, g (i + 1 + (k : ℤ)) = g (i + ((k + 1 : ℕ) : ℤ)) := by
      intro k
      congr 1
      push_cast
      ring
    simp only [hterm, Nat.cast_zero, add_zero]
    ring

/-! ## Closed forms for the integrand `x * x` -/

/-- Sum of the squares sampled at `A + H, A + 2H, ..., A + mH`. -/
theorem sum_sq_samples (A H : ℚ) (m : ℕ) :
    ∑ k in Finset.range m, (A + ((k : ℚ) + 1) * H) * (A + ((k : ℚ) + 1) * H)
      = m * A ^ 2 + A * H * m * (m + 1) + H ^ 2 * m * (m + 1) * (2 * m + 1) / 6 := by
  induction m with
  | zero => simp
  | succ m ih =>
    rw [Finset.sum_range_succ, ih]
    push_cast
    ring

/-- The interior loop of every `trapezoidal_sum`, started at `i = 1` with `n ≥ 1`. -/
theorem interior_loop_closed (A H s : ℚ) (n : ℤ) (hn : 1 ≤ n) :
    forLoop (fun i acc => acc + (A + (i : ℚ) * H) * (A + (i : ℚ) * H)) n 1 s
      = s + ((n - 1) * A ^ 2 + A * H * (n - 1) * n + H ^ 2 * (n - 1) * n * (2 * n - 1) / 6) := by
  obtain ⟨m, rfl⟩ : ∃ m : ℕ, n = (m : ℤ) + 1 := ⟨(n - 1).toNat, by omega⟩
  rw [forLoop_add_eq (fun i : ℤ => (A + (i : ℚ) * H) * (A + (i : ℚ) * H)) _ m 1 s (by omega)]
  have hterm : ∀ k : ℕ, (A + (((1 : ℤ) + (k : ℤ) : ℤ) : ℚ) * H) * (A + (((1 : ℤ) + (k : ℤ) : ℤ) : ℚ) * H)
      = (A + ((k : ℚ) + 1) * H) * (A + ((k : ℚ) + 1) * H) := by
    intro k
    push_cast
    ring
  simp only [hterm, sum_sq_samples]
  push_cast
  ring

/-- Closed form of the local integrator of riemann_mpi.c on `[A, A + n H]`, `n ≥ 1`. -/
theorem mpi_trapezoidal_sum_closed (A H : ℚ) (n : ℤ) (hn : 1 ≤ n) :
    RiemannMpi.trapezoidal_sum A (A + (n : ℚ) * H) n H
      = ((A + (n : ℚ) * H) ^ 3 - A ^ 3) / 3 + (n : ℚ) * H ^ 3 / 6 := by
  simp only [RiemannMpi.trapezoidal_sum, RiemannMpi.f]
  rw [interior_loop_closed A H _ n hn]
  norm_num
  ring

/-- The sequential integrator is the local integrator applied to the whole interval. -/
theorem seq_eq_mpi_trapezoidal_sum (N : ℤ) (a b : ℚ) :
    Riemann.trapezoidal_sum N a b = RiemannMpi.trapezoidal_sum a b N ((b - a) / (N : ℚ)) := rfl

/-- Closed form of the sequential integrator of riemann.c. -/
theorem seq_trapezoidal_sum_closed (N : ℤ) (a b : ℚ) (hN : 1 ≤ N) :
    Riemann.trapezoidal_sum N a b = (b ^ 3 - a ^ 3) / 3 + (b - a) ^ 3 / (6 * (N : ℚ) ^ 2) := by
  have hN0 : (N : ℚ) ≠ 0 := by
    have : (0 : ℚ) < (N : ℚ) := by exact_mod_cast (by omega : 0 < N)
    exact ne_of_gt this
  have hb : b = a + (N : ℚ) * ((b - a) / (N : ℚ)) := by
    field_simp
  have key := mpi_trapezoidal_sum_closed a ((b - a) / (N : ℚ)) N hN
  rw [← hb] at key
  rw [seq_eq_mpi_trapezoidal_sum, key]
  field_simp
  ring

/-! ## The partition of riemann_mpi.c -/

/-- The lower bound of rank `i`, with the two summands of the source merged. -/
theorem mpi_LOCAL_A_eq (N W i : ℤ) (a b : ℚ) :
    RiemannMpi.LOCAL_A N W i a b
      = a + ((i * N.tdiv W + min i (N.tmod W) : ℤ) : ℚ) * RiemannMpi.H N a b := by
  unfold RiemannMpi.LOCAL_A
  by_cases h : i < N.tmod W
  · rw [if_pos h, min_eq_left h.le]
    push_cast
    ring
  · rw [if_neg h, min_eq_right (not_lt.mp h)]
    push_cast
    ring

/-- Each rank ends where the formula for the next rank starts. -/
theorem mpi_LOCAL_B_eq_next (N W i : ℤ) (a b : ℚ) :
    RiemannMpi.LOCAL_B N W i a b = RiemannMpi.LOCAL_A N W (i + 1) a b := by
  have hmin : i * N.tdiv W + min i (N.tmod W) + RiemannMpi.LOCAL_N N W i
      = (i + 1) * N.tdiv W + min (i + 1) (N.tmod W) := by
    unfold RiemannMpi.LOCAL_N
    rw [add_mul, one_mul]
    by_cases h : i < N.tmod W
    · rw [if_pos h, min_eq_left h.le, min_eq_left (by omega)]
      omega
    · rw [if_neg h, min_eq_right (not_lt.mp h), min_eq_right (by omega)]
      omega
  unfold RiemannMpi.LOCAL_B
  rw [mpi_LOCAL_A_eq, mpi_LOCAL_A_eq, ← hmin]
  push_cast
  ring

/-- Quotient and remainder of the partition recombine to `N`. -/
theorem mpi_base_remainder (N W : ℤ) : W * N.tdiv W + N.tmod W = N :=
  Int.tdiv_add_tmod N W

/-- The formula for the lower bound, evaluated one past the last rank, gives `b`. -/
theorem mpi_LOCAL_A_last (N W : ℤ) (a b : ℚ) (hN : 0 < N) (hW : 0 < W) :
    RiemannMpi.LOCAL_A N W W a b = b := by
  have hr : N.tmod W < W := Int.tmod_lt_of_pos N hW
  have hN0 : (N : ℚ) ≠ 0 := by
    have : (0 : ℚ) < (N : ℚ) := by exact_mod_cast hN
    exact ne_of_gt this
  rw [mpi_LOCAL_A_eq, min_eq_right hr.le, mpi_base_remainder]
  unfold RiemannMpi.H
  field_simp

/-- The lower bound of rank 0 is `a`. -/
theorem mpi_LOCAL_A_zero (N W : ℤ) (a b : ℚ) (hN : 0 ≤ N) :
    RiemannMpi.LOCAL_A N W 0 a b = a := by
  have hr : 0 ≤ N.tmod W := Int.tmod_nonneg W hN
  rw [mpi_LOCAL_A_eq, min_eq_left hr]
  simp

/-- Trapezoids handed to the ranks below `m`. -/
theorem mpi_LOCAL_N_below (N W : ℤ) (hN : 0 ≤ N) (m : ℕ) :
    ∑ j in Finset.range m, RiemannMpi.LOCAL_N N W (j : ℤ)
      = (m : ℤ) * N.tdiv W + min (m : ℤ) (N.tmod W) := by
  have hr : 0 ≤ N.tmod W := Int.tmod_nonneg W hN
  induction m with
  | zero => simp [min_eq_left hr]
  | succ m ih =>
    rw [Finset.sum_range_succ, ih]
    unfold RiemannMpi.LOCAL_N
    push_cast
    rw [add_mul, one_mul]
    by_cases h : (m : ℤ) < N.tmod W
    · rw [if_pos h, min_eq_left h.le, min_eq_left (by omega)]
      omega
    · rw [if_neg h, min_eq_right (not_lt.mp h), min_eq_right (by omega)]
      omega

/-- With at least one trapezoid per rank available, every rank gets one. -/
theorem mpi_LOCAL_N_pos (N W i : ℤ) (hW : 0 < W) (hWN : W ≤ N) :
    1 ≤ RiemannMpi.LOCAL_N N W i := by
  have hbase : 1 ≤ N.tdiv W := by
    have h0 : 0 ≤ N.tdiv W := Int.tdiv_nonneg (by omega) hW.le
    have hr : N.tmod W < W := Int.tmod_lt_of_pos N hW
    have hsum := mpi_base_remainder N W
    rcases Int.lt_or_le 0 (N.tdiv W) with h | h
    · omega
    · have hz : N.tdiv W = 0 := by omega
      rw [hz] at hsum
      omega
  simp only [RiemannMpi.LOCAL_N]
  split_ifs <;> omega

/-- The reduction loop of rank 0 adds up the partial results of all ranks. -/
theorem mpi_GLOBAL_SUM_eq_sum (N : ℤ) (w : ℕ) (hw : 0 < w) (a b : ℚ) :
    RiemannMpi.GLOBAL_SUM N (w : ℤ) a b
      = ∑ i in Finset.range w, RiemannMpi.LOCAL_SUM N (w : ℤ) (i : ℤ) a b := by
  obtain ⟨m, rfl⟩ : ∃ m : ℕ, w = m + 1 := ⟨w - 1, by omega⟩
  unfold RiemannMpi.GLOBAL_SUM
  rw [forLoop_add_eq (fun i : ℤ => RiemannMpi.LOCAL_SUM N ((m + 1 : ℕ) : ℤ) i a b) _ m 1 _
    (by push_cast; omega), Finset.sum_range_succ']
  have hterm : ∀ k : ℕ, RiemannMpi.LOCAL_SUM N ((m + 1 : ℕ) : ℤ) (1 + (k : ℤ)) a b
      = RiemannMpi.LOCAL_SUM N ((m + 1 : ℕ) : ℤ) ((k + 1 : ℕ) : ℤ) a b := by
    intro k
    congr 1
    push_cast
    ring
  simp only [hterm, Nat.cast_zero]
  ring

/-- Closed form of one rank's partial result when the rank has work. -/
theorem mpi_LOCAL_SUM_closed (N W i : ℤ) (a b : ℚ) (hn : 1 ≤ RiemannMpi.LOCAL_N N W i) :
    RiemannMpi.LOCAL_SUM N W i a b
      = (RiemannMpi.LOCAL_A N W (i + 1) a b ^ 3 - RiemannMpi.LOCAL_A N W i a b ^ 3) / 3
        + (RiemannMpi.LOCAL_N N W i : ℚ) * RiemannMpi.H N a b ^ 3 / 6 := by
  have hB : RiemannMpi.LOCAL_B N W i a b
      = RiemannMpi.LOCAL_A N W i a b + (RiemannMpi.LOCAL_N N W i : ℚ) * RiemannMpi.H N a b := rfl
  unfold RiemannMpi.LOCAL_SUM
  rw [hB, mpi_trapezoidal_sum_closed _ _ _ hn, ← hB, mpi_LOCAL_B_eq_next]

/-- Worker-count invariance of the distributed reduction, for any positive worker count
not exceeding `N`. -/
theorem mpi_GLOBAL_SUM_eq_seq (a b : ℚ) (N W : ℤ) (hW : 1 ≤ W) (hWN : W ≤ N) :
    RiemannMpi.GLOBAL_SUM N W a b = Riemann.trapezoidal_sum N a b := by
  obtain ⟨w, rfl⟩ : ∃ w : ℕ, W = (w : ℤ) := ⟨W.toNat, by omega⟩
  have hw : 0 < w := by omega
  have hN : 1 ≤ N := by omega
  rw [mpi_GLOBAL_SUM_eq_sum N w hw, seq_trapezoidal_sum_closed N a b hN]
  have hterm : ∀ i ∈ Finset.range w, RiemannMpi.LOCAL_SUM N (w : ℤ) (i : ℤ) a b
      = ((RiemannMpi.LOCAL_A N (w : ℤ) ((i + 1 : ℕ) : ℤ) a b ^ 3 / 3
          - RiemannMpi.LOCAL_A N (w : ℤ) (i : ℤ) a b ^ 3 / 3)
        + ((RiemannMpi.LOCAL_N N (w : ℤ) (i : ℤ) : ℤ) : ℚ) * (RiemannMpi.H N a b ^ 3 / 6)) := by
    intro i _
    rw [mpi_LOCAL_SUM_closed N (w : ℤ) (i : ℤ) a b (mpi_LOCAL_N_pos N w i (by omega) hWN)]
    push_cast
    ring
  rw [Finset.sum_congr rfl hterm, Finset.sum_add_distrib,
    Finset.sum_range_sub (fun i : ℕ => RiemannMpi.LOCAL_A N (w : ℤ) (i : ℤ) a b ^ 3 / 3) w,
    ← Finset.sum_mul, ← Int.cast_sum, mpi_LOCAL_N_below N (w : ℤ) (by omega) w,
    min_eq_right (Int.tmod_lt_of_pos N (by omega : (0 : ℤ) < (w : ℤ))).le, mpi_base_remainder,
    mpi_LOCAL_A_last N (w : ℤ) a b (by omega) (by omega), Nat.cast_zero,
    mpi_LOCAL_A_zero N (w : ℤ) a b (by omega)]
  have hN0 : (N : ℚ) ≠ 0 := by
    have : (0 : ℚ) < (N : ℚ) := by exact_mod_cast (by omega : 0 < N)
    exact ne_of_gt this
  unfold RiemannMpi.H
  field_simp
  ring

/-! ## The parallel region of riemann_omp.c -/

/-- The parallel region run by threads `0..w-1` adds every thread's `local_sum` once. -/
theorem omp_parallel_region_threads (N : ℤ) (a b : ℚ) (n : ℤ) (s : ℚ) (w : ℕ) :
    RiemannOmp.parallel_region N (RiemannOmp.threads (w : ℤ)) a b n s
      = s + ∑ t in Finset.range w, RiemannOmp.local_sum N (t : ℤ) a b n := by
  induction w with
  | zero => simp [RiemannOmp.parallel_region, RiemannOmp.threads]
  | succ w ih =>
    have hsplit : RiemannOmp.threads ((w + 1 : ℕ) : ℤ)
        = RiemannOmp.threads (w : ℤ) ++ [(w : ℤ)] := by
      simp [RiemannOmp.threads, List.range_succ]
    have hstep : RiemannOmp.parallel_region N (RiemannOmp.threads (w : ℤ) ++ [(w : ℤ)]) a b n s
        = RiemannOmp.parallel_region N (RiemannOmp.threads (w : ℤ)) a b n s
          + RiemannOmp.local_sum N (w : ℤ) a b n := by
      simp [RiemannOmp.parallel_region, RiemannOmp.trapezoidal_sum, List.foldl_append]
    rw [hsplit, hstep, ih, Finset.sum_range_succ]
    ring

/-- Closed form of one thread's `local_sum` when it has at least one trapezoid: the exact
trapezoid value over the computed segment, plus the change caused by the adjustment of
`local_b`. -/
theorem omp_local_sum_closed (N t : ℤ) (a b : ℚ) (n : ℤ) (hn : 1 ≤ n) :
    RiemannOmp.local_sum N t a b n
      = (RiemannOmp.local_b_computed N t a b n ^ 3 - RiemannOmp.local_a N t a b n ^ 3) / 3
        + (n : ℚ) * RiemannOmp.h N a b ^ 3 / 6
        + RiemannOmp.h N a b / 2
          * (RiemannOmp.local_b N t a b n ^ 2 - RiemannOmp.local_b_computed N t a b n ^ 2) := by
  simp only [RiemannOmp.local_sum, RiemannOmp.f]
  rw [interior_loop_closed _ _ _ n hn]
  simp only [RiemannOmp.local_b_computed]
  norm_num
  ring

/-- The end point first computed by thread `t` is the start point of thread `t + 1`. -/
theorem omp_local_b_computed_eq_next (N t : ℤ) (a b : ℚ) (n : ℤ) :
    RiemannOmp.local_b_computed N t a b n = RiemannOmp.local_a N (t + 1) a b n := by
  simp only [RiemannOmp.local_b_computed, RiemannOmp.local_a]
  push_cast
  ring

/-- On a forward interval the adjustment of `local_b` changes nothing for a thread whose
segment ends within the first `N` trapezoids. -/
theorem omp_local_b_unadjusted (N t : ℤ) (a b : ℚ) (n : ℤ) (hab : a ≤ b) (hN : 0 < N)
    (hend : (t + 1) * n ≤ N) :
    RiemannOmp.local_b N t a b n = RiemannOmp.local_b_computed N t a b n := by
  have hNq : (0 : ℚ) < (N : ℚ) := by exact_mod_cast hN
  have hh : 0 ≤ RiemannOmp.h N a b := by
    unfold RiemannOmp.h
    exact div_nonneg (by linarith) hNq.le
  have hendq : (((t + 1) * n : ℤ) : ℚ) ≤ (N : ℚ) := by exact_mod_cast hend
  have hb : b = a + (N : ℚ) * RiemannOmp.h N a b := by
    unfold RiemannOmp.h
    field_simp
  have hle : RiemannOmp.local_b_computed N t a b n ≤ b := by
    have hval : RiemannOmp.local_b_computed N t a b n
        = a + (((t + 1) * n : ℤ) : ℚ) * RiemannOmp.h N a b := by
      simp only [RiemannOmp.local_b_computed, RiemannOmp.local_a]
      push_cast
      ring
    have hmul := mul_le_mul_of_nonneg_right hendq hh
    rw [hval]
    linarith
  unfold RiemannOmp.local_b
  rw [if_neg (not_lt.mpr hle)]

/-- On a forward interval, with a thread count that divides `N`, the shared-memory result is
the sequential result. -/
theorem omp_final_sum_result_forward (a b : ℚ) (N T : ℤ) (hab : a ≤ b) (hN : 0 < N)
    (hT : 0 < T) (hdiv : N.tmod T = 0) :
    RiemannOmp.final_sum_result N T a b = Riemann.trapezoidal_sum N a b := by
  obtain ⟨w, rfl⟩ : ∃ w : ℕ, T = (w : ℤ) := ⟨T.toNat, by omega⟩
  have hprod : (w : ℤ) * N.tdiv (w : ℤ) = N := by
    have := mpi_base_remainder N (w : ℤ)
    omega
  have hn : 1 ≤ N.tdiv (w : ℤ) := by
    rcases Int.lt_or_le 0 (N.tdiv (w : ℤ)) with h | h
    · omega
    · have hle := mul_le_mul_of_nonneg_left h (by omega : (0 : ℤ) ≤ (w : ℤ))
      rw [hprod, mul_zero] at hle
      omega
  have hNq : (N : ℚ) ≠ 0 := by
    have : (0 : ℚ) < (N : ℚ) := by exact_mod_cast hN
    exact ne_of_gt this
  have hterm : ∀ t ∈ Finset.range w, RiemannOmp.local_sum N (t : ℤ) a b (N.tdiv (w : ℤ))
      = ((RiemannOmp.local_a N ((t + 1 : ℕ) : ℤ) a b (N.tdiv (w : ℤ)) ^ 3 / 3
          - RiemannOmp.local_a N (t : ℤ) a b (N.tdiv (w : ℤ)) ^ 3 / 3)
        + (N.tdiv (w : ℤ) : ℚ) * RiemannOmp.h N a b ^ 3 / 6) := by
    intro t ht
    have hend : ((t : ℤ) + 1) * N.tdiv (w : ℤ) ≤ N := by
      have ht1 : (t : ℤ) + 1 ≤ (w : ℤ) := by
        have := Finset.mem_range.mp ht
        omega
      have hle := mul_le_mul_of_nonneg_right ht1 (by omega : (0 : ℤ) ≤ N.tdiv (w : ℤ))
      rw [hprod] at hle
      exact hle
    rw [omp_local_sum_closed N (t : ℤ) a b _ hn,
      omp_local_b_unadjusted N (t : ℤ) a b _ hab hN hend, omp_local_b_computed_eq_next]
    push_cast
    ring
  unfold RiemannOmp.final_sum_result
  rw [omp_parallel_region_threads, Finset.sum_congr rfl hterm, Finset.sum_add_distrib,
    Finset.sum_range_sub
      (fun t : ℕ => RiemannOmp.local_a N (t : ℤ) a b (N.tdiv (w : ℤ)) ^ 3 / 3) w,
    Finset.sum_const, Finset.card_range, seq_trapezoidal_sum_closed N a b (by omega)]
  simp only [RiemannOmp.local_a, hprod, Nat.cast_zero, zero_mul, Int.cast_zero, add_zero]
  have hcast : (w : ℚ) * (N.tdiv (w : ℤ) : ℚ) = (N : ℚ) := by exact_mod_cast hprod
  unfold RiemannOmp.h
  rw [nsmul_eq_mul]
  have hexp : (w : ℚ) * ((N.tdiv (w : ℤ) : ℚ) * ((b - a) / (N : ℚ)) ^ 3 / 6)
      = ((w : ℚ) * (N.tdiv (w : ℤ) : ℚ)) * (((b - a) / (N : ℚ)) ^ 3 / 6) := by ring
  rw [hexp, hcast]
  norm_num
  field_simp
  ring

/-- The run `./riemann_omp 1000 0 2` with the shipped `N`: the first thread's end point is
adjusted to `0`, and the result is off the sequential one by `5/4`. -/
theorem omp_reversed_interval_shipped_N :
    RiemannOmp.final_sum_result RiemannOmp.N 2 1000 0
      = Riemann.trapezoidal_sum Riemann.N 1000 0 + 5 / 4 := by
  have hdiv : RiemannOmp.N.tdiv 2 = 50000000 := by decide
  have hreg := omp_parallel_region_threads RiemannOmp.N 1000 0 50000000 0 2
  rw [Nat.cast_ofNat] at hreg
  unfold RiemannOmp.final_sum_result
  rw [hdiv]
  norm_num
  rw [hreg, Finset.sum_range_succ, Finset.sum_range_one,
    omp_local_sum_closed _ _ _ _ _ (by norm_num), omp_local_sum_closed _ _ _ _ _ (by norm_num),
    seq_trapezoidal_sum_closed _ _ _ (by decide)]
  norm_num [RiemannOmp.local_b, RiemannOmp.local_b_computed, RiemannOmp.local_a, RiemannOmp.h,
    RiemannOmp.N, Riemann.N]

/-! ## Degenerate inputs -/

/-- With a zero step width the local integrator of riemann_mpi.c returns zero. -/
theorem mpi_LOCAL_SUM_degenerate (N W i : ℤ) (a : ℚ) : RiemannMpi.LOCAL_SUM N W i a a = 0 := by
  simp [RiemannMpi.LOCAL_SUM, RiemannMpi.trapezoidal_sum, RiemannMpi.H]

/-- With a zero step width every thread of riemann_omp.c contributes zero, whatever the team
and the order of the critical sections. -/
theorem omp_parallel_region_degenerate (N : ℤ) (team : List ℤ) (a : ℚ) (n : ℤ) (s : ℚ) :
    RiemannOmp.parallel_region N team a a n s = s := by
  unfold RiemannOmp.parallel_region
  induction team generalizing s with
  | nil => rfl
  | cons t ts ih =>
    rw [List.foldl_cons, ih]
    simp [RiemannOmp.trapezoidal_sum, RiemannOmp.local_sum, RiemannOmp.h]

/-- With no trapezoid the local integrator of riemann_mpi.c returns the end-point term. -/
theorem mpi_trapezoidal_sum_zero_count (A B H : ℚ) :
    RiemannMpi.trapezoidal_sum A B 0 H = 0.5 * (A * A + B * B) * H := by
  simp only [RiemannMpi.trapezoidal_sum, RiemannMpi.f]
  rw [forLoop_done _ _ _ _ (by decide)]

/-! ## Claims -/

/-- C1: worker-count invariance of the distributed variant. In exact arithmetic, for every
`a`, `b`, every `N ≥ 1` and every worker count `1 ≤ W ≤ N`, the coordinator's `GLOBAL_SUM`
of riemann_mpi.c equals the sequential `trapezoidal_sum(a, b)` of riemann.c; for `W = 1`
the single partition is the whole interval (`LOCAL_A = a`, `LOCAL_B = b`, `LOCAL_N = N`)
and the result is the sequential one. -/
theorem c1_mpi_worker_count_invariance (a b : ℚ) (N W : ℤ) (hN : 1 ≤ N) (hW : 1 ≤ W)
    (hWN : W ≤ N) :
    RiemannMpi.GLOBAL_SUM N W a b = Riemann.trapezoidal_sum N a b
      ∧ (RiemannMpi.LOCAL_A N 1 0 a b = a ∧ RiemannMpi.LOCAL_B N 1 0 a b = b
          ∧ RiemannMpi.LOCAL_N N 1 0 = N
          ∧ RiemannMpi.GLOBAL_SUM N 1 a b = Riemann.trapezoidal_sum N a b) := by
  refine ⟨mpi_GLOBAL_SUM_eq_seq a b N W hW hWN, mpi_LOCAL_A_zero N 1 a b (by omega), ?_, ?_,
    mpi_GLOBAL_SUM_eq_seq a b N 1 le_rfl hN⟩
  · have h := mpi_LOCAL_B_eq_next N 1 0 a b
    rw [zero_add, mpi_LOCAL_A_last N 1 a b (by omega) one_pos] at h
    exact h
  · simp [RiemannMpi.LOCAL_N]

/-- Witness for C1: five trapezoids on `[0, 1]` shared by three ranks. -/
theorem c1_mpi_worker_count_invariance_witness :
    ((1 : ℤ) ≤ 5 ∧ (1 : ℤ) ≤ 3 ∧ (3 : ℤ) ≤ 5)
      ∧ RiemannMpi.GLOBAL_SUM 5 3 0 1 = Riemann.trapezoidal_sum 5 0 1 :=
  ⟨by decide, (c1_mpi_worker_count_invariance 0 1 5 3 (by decide) (by decide) (by decide)).1⟩

/-- C2: partition count completeness. For every `N > 0` and `W > 0` the trapezoid counts
`LOCAL_N` of ranks `0..W-1` of riemann_mpi.c add up to `N`. -/
theorem c2_mpi_partition_count_complete (N W : ℤ) (hN : 0 < N) (hW : 0 < W) :
    ∑ i in Finset.range W.toNat, RiemannMpi.LOCAL_N N W (i : ℤ) = N := by
  have hr : N.tmod W < W := Int.tmod_lt_of_pos N hW
  have hcast : ((W.toNat : ℕ) : ℤ) = W := Int.toNat_of_nonneg hW.le
  rw [mpi_LOCAL_N_below N W hN.le, hcast, min_eq_right hr.le, mpi_base_remainder]

/-- Witness for C2: ten trapezoids over three ranks (counts 4, 3, 3). -/
theorem c2_mpi_partition_count_complete_witness :
    ((0 : ℤ) < 10 ∧ (0 : ℤ) < 3)
      ∧ ∑ i in Finset.range (3 : ℤ).toNat, RiemannMpi.LOCAL_N 10 3 (i : ℤ) = 10 :=
  ⟨by decide, c2_mpi_partition_count_complete 10 3 (by decide) (by decide)⟩

/-- C3: partition contiguity. In exact arithmetic, for every `a`, `b`, `N > 0` and `W > 0`,
rank 0 starts at `a`, rank `W-1` ends at `b`, and every rank `i < W-1` ends where rank `i+1`
starts. -/
theorem c3_mpi_partition_contiguous (a b : ℚ) (N W : ℤ) (hN : 0 < N) (hW : 0 < W) :
    RiemannMpi.LOCAL_A N W 0 a b = a
      ∧ RiemannMpi.LOCAL_B N W (W - 1) a b = b
      ∧ ∀ i : ℤ, 0 ≤ i → i < W - 1 →
          RiemannMpi.LOCAL_B N W i a b = RiemannMpi.LOCAL_A N W (i + 1) a b := by
  refine ⟨mpi_LOCAL_A_zero N W a b hN.le, ?_, fun i _ _ => mpi_LOCAL_B_eq_next N W i a b⟩
  rw [mpi_LOCAL_B_eq_next, sub_add_cancel, mpi_LOCAL_A_last N W a b hN hW]

/-- Witness for C3: ten trapezoids on `[0, 1]` over three ranks. -/
theorem c3_mpi_partition_contiguous_witness :
    ((0 : ℤ) < 10 ∧ (0 : ℤ) < 3)
      ∧ RiemannMpi.LOCAL_A 10 3 0 0 1 = 0
      ∧ RiemannMpi.LOCAL_B 10 3 (3 - 1) 0 1 = 1
      ∧ ∀ i : ℤ, 0 ≤ i → i < 3 - 1 →
          RiemannMpi.LOCAL_B 10 3 i 0 1 = RiemannMpi.LOCAL_A 10 3 (i + 1) 0 1 :=
  ⟨by decide, c3_mpi_partition_contiguous 0 1 10 3 (by decide) (by decide)⟩

/-- C4: start-offset formula. In exact arithmetic, for every `a`, `b`, `N > 0`, `W > 0` and
rank `0 ≤ i < W`, the `LOCAL_A` computed in riemann_mpi.c equals the specification's
`a + h * (i * baseN + min(i, remainder))`, and the integer offset
`i * baseN + min(i, remainder)` is the sum of `LOCAL_N(j)` over the ranks `j < i`. -/
theorem c4_mpi_start_offset_formula (a b : ℚ) (N W i : ℤ) (hN : 0 < N) (hW : 0 < W)
    (hi : 0 ≤ i) (_hiW : i < W) :
    RiemannMpi.LOCAL_A N W i a b = Spec.localA a b N W i
      ∧ Spec.offset N W i = ∑ j in Finset.range i.toNat, RiemannMpi.LOCAL_N N W (j : ℤ) := by
  have hdiv : N / W = N.tdiv W := (Int.tdiv_eq_ediv hN.le hW.le).symm
  have hmod : N % W = N.tmod W := (Int.tmod_eq_emod hN.le hW.le).symm
  have hcast : ((i.toNat : ℕ) : ℤ) = i := Int.toNat_of_nonneg hi
  constructor
  · rw [mpi_LOCAL_A_eq]
    simp only [Spec.localA, Spec.offset, RiemannMpi.H, hdiv, hmod]
    ring
  · rw [mpi_LOCAL_N_below N W hN.le, hcast]
    simp only [Spec.offset, hdiv, hmod]

/-- Witness for C4: rank 2 of three ranks sharing ten trapezoids on `[0, 1]`. -/
theorem c4_mpi_start_offset_formula_witness :
    ((0 : ℤ) < 10 ∧ (0 : ℤ) < 3 ∧ (0 : ℤ) ≤ 2 ∧ (2 : ℤ) < 3)
      ∧ RiemannMpi.LOCAL_A 10 3 2 0 1 = Spec.localA 0 1 10 3 2
      ∧ Spec.offset 10 3 2 = ∑ j in Finset.range (2 : ℤ).toNat, RiemannMpi.LOCAL_N 10 3 (j : ℤ) :=
  ⟨by decide,
    c4_mpi_start_offset_formula 0 1 10 3 2 (by decide) (by decide) (by decide) (by decide)⟩

/-- C5, evaluated where it fails: on a reversed interval the adjustment
`if (local_b > param_b) local_b = param_b` fires in every thread but the last, so the
shared-memory result differs from the sequential one. With the shipped `N = 100000000`,
two threads and `a = 1000`, `b = 0` the difference is `5/4`; with `N = 2`, two threads and
`a = 1`, `b = 0` the results are `-5/16` and `-3/8`. -/
theorem c5_omp_reversed_interval_diverges :
    RiemannOmp.N.tmod 2 = 0
      ∧ RiemannOmp.final_sum_result RiemannOmp.N 2 1000 0
          = Riemann.trapezoidal_sum Riemann.N 1000 0 + 5 / 4
      ∧ RiemannOmp.final_sum_result 2 2 1 0 = -5 / 16
      ∧ Riemann.trapezoidal_sum 2 1 0 = -3 / 8 := by
  refine ⟨by decide, omp_reversed_interval_shipped_N, ?_, ?_⟩
  · norm_num [RiemannOmp.final_sum_result, RiemannOmp.parallel_region, RiemannOmp.threads,
      RiemannOmp.trapezoidal_sum, RiemannOmp.local_sum, RiemannOmp.local_a, RiemannOmp.local_b,
      RiemannOmp.local_b_computed, RiemannOmp.h, RiemannOmp.f, forLoop_step, forLoop_done,
      Int.tdiv, List.range, List.range.loop]
  · norm_num [Riemann.trapezoidal_sum, Riemann.f, forLoop_step, forLoop_done]

/-- C6, evaluated where it fails: with `local_n = 0` the local integrator of riemann_mpi.c
skips the loop but still returns the end-point term `0.5 * (f(a) + f(b)) * H`. On
`trapezoidal_sum(1, 1, 0, 1)` that is `1`, not `0`; and in a run with the shipped `N` on
`[0, 100000000]` with `100000001` ranks, the last rank has `LOCAL_N = 0` and
`LOCAL_SUM = 10^16`. With one trapezoid on `[0, 1]` and two ranks, the idle rank 1
(`LOCAL_N = 0`) adds `1`, so `GLOBAL_SUM` is `3/2` where the sequential result is `1/2`. -/
theorem c6_mpi_zero_subdivision_contributes :
    RiemannMpi.trapezoidal_sum 1 1 0 1 = 1
      ∧ RiemannMpi.LOCAL_N RiemannMpi.N 100000001 100000000 = 0
      ∧ RiemannMpi.LOCAL_SUM RiemannMpi.N 100000001 100000000 0 100000000
          = 10000000000000000
      ∧ (RiemannMpi.LOCAL_N 1 2 1 = 0 ∧ RiemannMpi.LOCAL_SUM 1 2 1 0 1 = 1
          ∧ RiemannMpi.GLOBAL_SUM 1 2 0 1 = 3 / 2 ∧ Riemann.trapezoidal_sum 1 0 1 = 1 / 2) := by
  have hsmall : RiemannMpi.LOCAL_N 1 2 1 = 0 ∧ RiemannMpi.LOCAL_SUM 1 2 1 0 1 = 1
      ∧ RiemannMpi.GLOBAL_SUM 1 2 0 1 = 3 / 2 ∧ Riemann.trapezoidal_sum 1 0 1 = 1 / 2 := by
    refine ⟨by decide, ?_, ?_, ?_⟩
    · norm_num [RiemannMpi.LOCAL_SUM, RiemannMpi.trapezoidal_sum, RiemannMpi.LOCAL_A,
        RiemannMpi.LOCAL_B, RiemannMpi.LOCAL_N, RiemannMpi.H, RiemannMpi.f, forLoop_step,
        forLoop_done, Int.tdiv, Int.tmod]
    · norm_num [RiemannMpi.GLOBAL_SUM, RiemannMpi.LOCAL_SUM, RiemannMpi.trapezoidal_sum,
        RiemannMpi.LOCAL_A, RiemannMpi.LOCAL_B, RiemannMpi.LOCAL_N, RiemannMpi.H, RiemannMpi.f,
        forLoop_step, forLoop_done, Int.tdiv, Int.tmod]
    · norm_num [Riemann.trapezoidal_sum, Riemann.f, forLoop_done]
  have hq : RiemannMpi.N.tdiv 100000001 = 0 := by decide
  have hr : RiemannMpi.N.tmod 100000001 = 100000000 := by decide
  have hn : RiemannMpi.LOCAL_N RiemannMpi.N 100000001 100000000 = 0 := by
    simp only [RiemannMpi.LOCAL_N, hq, hr]
    decide
  refine ⟨?_, hn, ?_, hsmall⟩
  · rw [mpi_trapezoidal_sum_zero_count]
    norm_num
  · unfold RiemannMpi.LOCAL_SUM
    rw [hn, mpi_trapezoidal_sum_zero_count]
    simp only [RiemannMpi.LOCAL_B, RiemannMpi.LOCAL_A, RiemannMpi.H, hn, hq, hr]
    norm_num [RiemannMpi.N]

/-- C7: known closed forms. In exact arithmetic with `N = 100000000` and `f(x) = x*x`, the
sequential `trapezoidal_sum(0, 1)` lies in `[0.3333325, 0.3333335)` and
`trapezoidal_sum(0, 2)` lies in `[2.6666665, 2.6666675)`. -/
theorem c7_known_closed_forms :
    ((0.3333325 : ℚ) ≤ Riemann.trapezoidal_sum Riemann.N 0 1
        ∧ Riemann.trapezoidal_sum Riemann.N 0 1 < 0.3333335)
      ∧ ((2.6666665 : ℚ) ≤ Riemann.trapezoidal_sum Riemann.N 0 2
        ∧ Riemann.trapezoidal_sum Riemann.N 0 2 < 2.6666675) := by
  rw [seq_trapezoidal_sum_closed Riemann.N 0 1 (by decide),
    seq_trapezoidal_sum_closed Riemann.N 0 2 (by decide)]
  norm_num [Riemann.N]

/-- C8: degenerate interval. In exact arithmetic, for every `a`, every `N > 0` and every
worker count `W > 0`, with `b = a` the result is `0` in all three variants: the sequential
`trapezoidal_sum(a, a)`, the distributed `GLOBAL_SUM`, and (for `W` dividing `N`) the
shared-memory `sum_result`, the latter for any team and any order of the critical
sections. -/
theorem c8_degenerate_interval (a : ℚ) (N W : ℤ) (_hN : 0 < N) (_hW : 0 < W) :
    Riemann.trapezoidal_sum N a a = 0
      ∧ RiemannMpi.GLOBAL_SUM N W a a = 0
      ∧ (W ∣ N →
          RiemannOmp.final_sum_result N W a a = 0
            ∧ ∀ team : List ℤ, RiemannOmp.parallel_region N team a a (N.tdiv W) 0.0 = 0) := by
  refine ⟨?_, ?_, fun _ => ⟨?_, fun team => ?_⟩⟩
  · simp [Riemann.trapezoidal_sum]
  · unfold RiemannMpi.GLOBAL_SUM
    simp only [mpi_LOCAL_SUM_degenerate]
    rw [forLoop_add_eq (fun _ : ℤ => (0 : ℚ)) W _ 1 0 rfl]
    simp
  · unfold RiemannOmp.final_sum_result
    rw [omp_parallel_region_degenerate]
    norm_num
  · rw [omp_parallel_region_degenerate]
    norm_num

/-- Witness for C8: `a = b = 3` with twelve trapezoids and four workers. -/
theorem c8_degenerate_interval_witness :
    ((0 : ℤ) < 12 ∧ (0 : ℤ) < 4 ∧ (4 : ℤ) ∣ 12)
      ∧ Riemann.trapezoidal_sum 12 3 3 = 0
      ∧ RiemannMpi.GLOBAL_SUM 12 4 3 3 = 0
      ∧ RiemannOmp.final_sum_result 12 4 3 3 = 0 :=
  have h := c8_degenerate_interval 3 12 4 (by decide) (by decide)
  ⟨by decide, h.1, h.2.1, (h.2.2 (by decide)).1⟩

/-! ## Argument validation in riemann_omp.c -/

/-- Past the argument checks, `main` of riemann_omp.c is decided by the thread count alone:
zero faults in `N % OMP_NUM_THREADS`, a non-divisor exits with status 1 before the parallel
region, and any other value (negative ones included) enters the parallel region. -/
theorem omp_main_after_parsing (env : Env) (argv : List String) (a b : ℚ) (parsed : ℤ)
    (hargc : 4 ≤ argv.length)
    (ha : env.strtod (argv.getD 1 "") = (a, ""))
    (hb : env.strtod (argv.getD 2 "") = (b, ""))
    (ht : env.strtol (argv.getD 3 "") = (parsed, "")) :
    RiemannOmp.main env argv =
      if wrap32 parsed = 0 then .fault
      else if RiemannOmp.N.tmod (wrap32 parsed) ≠ 0 then
        .exited 1
          [⟨"The number of trapezoids (N) must be divisible by the number of threads.\n", []⟩]
          0.0 false
      else
        .exited 0
          [⟨"With n = %d, the approximation of the integral from point a = %.2f to point b = %.2f is %.6f\n",
              [.int RiemannOmp.N, .dbl a, .dbl b,
               .dbl (RiemannOmp.parallel_region RiemannOmp.N (env.team (wrap32 parsed)) a b
                      (RiemannOmp.N.tdiv (wrap32 parsed)) 0.0)]⟩,
           ⟨"Execution time: %.6f seconds\n", [.dbl env.elapsed]⟩]
          (RiemannOmp.parallel_region RiemannOmp.N (env.team (wrap32 parsed)) a b
            (RiemannOmp.N.tdiv (wrap32 parsed)) 0.0)
          true := by
  have hlen : ¬ ((argv.length : ℤ) < 4) := by omega
  simp only [RiemannOmp.main, hlen, ha, hb, ht, if_false, ne_eq, not_true_eq_false]

/-- The divisibility check of `main` of riemann_omp.c acts on the value stored in
`int OMP_NUM_THREADS`, the parsed `long` narrowed to 32 bits. With well-formed `a`, `b` and a
positive stored value `T`, `main` returns exit status 1 before the parallel region is
entered, with `sum_result` still `0.0`, if and only if `N = 100000000` is not divisible by
`T`; otherwise it runs the parallel region and returns 0. -/
theorem omp_divisibility_validation_stored (env : Env) (argv : List String) (a b : ℚ) (parsed : ℤ)
    (hargc : 4 ≤ argv.length)
    (ha : env.strtod (argv.getD 1 "") = (a, ""))
    (hb : env.strtod (argv.getD 2 "") = (b, ""))
    (ht : env.strtol (argv.getD 3 "") = (parsed, ""))
    (hT : 0 < wrap32 parsed) :
    ((∃ stdout, RiemannOmp.main env argv = .exited 1 stdout 0.0 false)
        ↔ ¬ (wrap32 parsed ∣ RiemannOmp.N))
      ∧ (¬ (wrap32 parsed ∣ RiemannOmp.N) →
          RiemannOmp.main env argv
            = .exited 1
                [⟨"The number of trapezoids (N) must be divisible by the number of threads.\n",
                  []⟩]
                0.0 false)
      ∧ (wrap32 parsed ∣ RiemannOmp.N →
          ∃ stdout, RiemannOmp.main env argv
            = .exited 0 stdout
                (RiemannOmp.parallel_region RiemannOmp.N (env.team (wrap32 parsed)) a b
                  (RiemannOmp.N.tdiv (wrap32 parsed)) 0.0)
                true) := by
  have hmain := omp_main_after_parsing env argv a b parsed hargc ha hb ht
  rw [if_neg (ne_of_gt hT)] at hmain
  have hdvd : wrap32 parsed ∣ RiemannOmp.N ↔ RiemannOmp.N.tmod (wrap32 parsed) = 0 :=
    Int.dvd_iff_tmod_eq_zero
  refine ⟨⟨?_, ?_⟩, ?_, ?_⟩
  · rintro ⟨stdout, hout⟩ hdiv
    rw [if_neg (not_not.mpr (hdvd.mp hdiv))] at hmain
    rw [hmain] at hout
    injection hout with hstatus
    exact absurd hstatus (by decide)
  · intro hdiv
    rw [if_pos (fun h0 => hdiv (hdvd.mpr h0))] at hmain
    exact ⟨_, hmain⟩
  · intro hdiv
    rw [if_pos (fun h0 => hdiv (hdvd.mpr h0))] at hmain
    exact hmain
  · intro hdiv
    rw [if_neg (not_not.mpr (hdvd.mp hdiv))] at hmain
    exact ⟨_, hmain⟩

/-- The run `./riemann_omp 0 1 4` in the sample environment: four divides `N`, so the run
enters the parallel region and returns 0. -/
theorem omp_divisibility_validation_stored_example :
    (4 ≤ ["./riemann_omp", "0", "1", "4"].length
        ∧ Sample.env.strtod "0" = (0, "") ∧ Sample.env.strtod "1" = (1, "")
        ∧ Sample.env.strtol "4" = (4, "") ∧ 0 < wrap32 4 ∧ wrap32 4 ∣ RiemannOmp.N)
      ∧ ∃ stdout, RiemannOmp.main Sample.env ["./riemann_omp", "0", "1", "4"]
          = .exited 0 stdout
              (RiemannOmp.parallel_region RiemannOmp.N (Sample.env.team (wrap32 4)) 0 1
                (RiemannOmp.N.tdiv (wrap32 4)) 0.0)
              true :=
  ⟨⟨by decide, by decide, by decide, by decide, by decide, by decide⟩,
    (omp_divisibility_validation_stored Sample.env ["./riemann_omp", "0", "1", "4"] 0 1 4
      (by decide) (by decide) (by decide) (by decide) (by decide)).2.2 (by decide)⟩

/-- C9, evaluated where it fails: `main` of riemann_omp.c stores the `long` returned by
`strtol` in `int OMP_NUM_THREADS` without a range check, and tests divisibility on the
stored value. In the run `./riemann_omp 0 1 4294967297` the parsed thread count
`4294967297 = 2^32 + 1` is positive and does not divide `N = 100000000`, but it is stored as
`1`: the check `N % OMP_NUM_THREADS != 0` passes, the parallel region is entered with one
thread's worth of work for the whole interval, and `main` returns 0 instead of 1. In the run
`./riemann_omp 0 1 4294967296` the parsed count `2^32` is positive and is stored as `0`, and
`main` divides by zero. -/
theorem c9_omp_thread_count_narrowed :
    Sample.env.strtol "4294967297" = (4294967297, "")
      ∧ (0 : ℤ) < 4294967297
      ∧ ¬ ((4294967297 : ℤ) ∣ RiemannOmp.N)
      ∧ wrap32 4294967297 = 1
      ∧ RiemannOmp.main Sample.env ["./riemann_omp", "0", "1", "4294967297"]
          = .exited 0
              [⟨Spec.result_line,
                  [.int 100000000, .dbl 0, .dbl 1,
                   .dbl (RiemannOmp.final_sum_result RiemannOmp.N 1 0 1)]⟩,
               ⟨Spec.time_line, [.dbl 0]⟩]
              (RiemannOmp.final_sum_result RiemannOmp.N 1 0 1) true
      ∧ Sample.env.strtol "4294967296" = (4294967296, "")
      ∧ ¬ ((4294967296 : ℤ) ∣ RiemannOmp.N)
      ∧ RiemannOmp.main Sample.env ["./riemann_omp", "0", "1", "4294967296"] = .fault := by
  have hmain := omp_main_after_parsing Sample.env ["./riemann_omp", "0", "1", "4294967297"]
    0 1 4294967297 (by decide) (by decide) (by decide) (by decide)
  have hzero := omp_main_after_parsing Sample.env ["./riemann_omp", "0", "1", "4294967296"]
    0 1 4294967296 (by decide) (by decide) (by decide) (by decide)
  have hwrap : wrap32 4294967297 = 1 := by decide
  have hteam : Sample.env.team 1 = RiemannOmp.threads 1 := by decide
  rw [hwrap, if_neg (by decide), if_neg (by decide), hteam] at hmain
  rw [if_pos (by decide)] at hzero
  exact ⟨by decide, by decide, by decide, hwrap, hmain, by decide, by decide, hzero⟩

/-- C10, evaluated where it fails: `main` of riemann_omp.c has no check for a non-positive
thread count. The run `./riemann_omp 0 1 0` divides by zero in `N % OMP_NUM_THREADS`
instead of exiting with status 1; the run `./riemann_omp 0 1 -1` passes the divisibility
check, enters the parallel region with `LOCAL_N = -100000000` and returns 0; run there by
one thread, it ends with `sum_result = 1/200000000`. -/
theorem c10_omp_nonpositive_thread_count_unchecked :
    RiemannOmp.main Sample.env ["./riemann_omp", "0", "1", "0"] = .fault
      ∧ RiemannOmp.main Sample.env ["./riemann_omp", "0", "1", "-1"]
          = .exited 0
              [⟨"With n = %d, the approximation of the integral from point a = %.2f to point b = %.2f is %.6f\n",
                  [.int 100000000, .dbl 0, .dbl 1, .dbl (1 / 200000000)]⟩,
               ⟨"Execution time: %.6f seconds\n", [.dbl 0]⟩]
              (1 / 200000000) true := by
  constructor
  · decide
  · have hsum : RiemannOmp.parallel_region RiemannOmp.N (Sample.env.team (wrap32 (-1))) 0 1
        (RiemannOmp.N.tdiv (wrap32 (-1))) 0.0 = 1 / 200000000 := by
      have hteam : Sample.env.team (wrap32 (-1)) = [0] := by decide
      have hn : RiemannOmp.N.tdiv (wrap32 (-1)) = -100000000 := by decide
      rw [hteam, hn]
      norm_num [RiemannOmp.parallel_region, RiemannOmp.trapezoidal_sum, RiemannOmp.local_sum,
        RiemannOmp.local_a, RiemannOmp.local_b, RiemannOmp.local_b_computed, RiemannOmp.h,
        RiemannOmp.f, RiemannOmp.N, forLoop_done]
    have hmain := omp_main_after_parsing Sample.env ["./riemann_omp", "0", "1", "-1"] 0 1 (-1)
      (by decide) (by decide) (by decide) (by decide)
    rw [if_neg (by decide), if_neg (by decide), hsum] at hmain
    rw [hmain]
    rfl

/-! ## Reductions over arbitrary partial results -/

/-- The critical sections add every partial result to the accumulator. -/
theorem critical_sections_eq_sum (local_sums : List ℚ) :
    ∀ sum_result : ℚ,
      RiemannOmp.critical_sections sum_result local_sums = sum_result + local_sums.sum := by
  induction local_sums with
  | nil =>
    intro s
    simp [RiemannOmp.critical_sections]
  | cons x xs ih =>
    intro s
    have hstep : RiemannOmp.critical_sections s (x :: xs)
        = RiemannOmp.critical_sections (s + x) xs := rfl
    rw [hstep, ih, List.sum_cons]
    ring

/-- Reading a list by index over its whole length adds up to its sum. -/
theorem sum_range_getD (l : List ℚ) :
    ∑ k in Finset.range l.length, l.getD k 0 = l.sum := by
  induction l with
  | nil => simp
  | cons x xs ih =>
    rw [List.length_cons, Finset.sum_range_succ', List.sum_cons]
    simp only [List.getD_cons_succ, List.getD_cons_zero, ih]
    ring

/-- The coordinator's loop over a non-empty list of partial results returns their sum. -/
theorem mpi_gather_eq_sum (sums : List ℚ) (hW : 1 ≤ sums.length) :
    RiemannMpi.gather (sums.getD 0 0) (fun i => sums.getD i.toNat 0) (sums.length : ℤ)
      = sums.sum := by
  cases sums with
  | nil => simp at hW
  | cons x xs =>
    unfold RiemannMpi.gather
    rw [forLoop_add_eq (fun i : ℤ => (x :: xs).getD i.toNat 0) _ xs.length 1 _
      (by rw [List.length_cons]; push_cast; omega)]
    have hterm : ∀ k : ℕ, (x :: xs).getD ((1 : ℤ) + (k : ℤ)).toNat 0 = xs.getD k 0 := by
      intro k
      have hk : ((1 : ℤ) + (k : ℤ)).toNat = k + 1 := by omega
      rw [hk, List.getD_cons_succ]
    simp only [hterm, sum_range_getD, List.getD_cons_zero, List.sum_cons]

/-- The parallel region is the run of the critical sections over the team's partial results. -/
theorem omp_parallel_region_eq_critical_sections (N : ℤ) (team : List ℤ) (a b : ℚ) (n : ℤ)
    (s : ℚ) :
    RiemannOmp.parallel_region N team a b n s
      = RiemannOmp.critical_sections s (team.map (fun t => RiemannOmp.local_sum N t a b n)) := by
  simp only [RiemannOmp.parallel_region, RiemannOmp.critical_sections,
    RiemannOmp.trapezoidal_sum, List.foldl_map]

/-! ## Bounds on the partition of riemann_omp.c and on the `int` products -/

/-- With a thread count dividing `N`, the segments of the threads below `T` end within the
first `N` trapezoids. -/
theorem omp_segment_end_le (N T t : ℤ) (hN : 0 < N) (hT : 0 < T) (hdiv : T ∣ N)
    (htT : t < T) : (t + 1) * N.tdiv T ≤ N := by
  have hprod : T * N.tdiv T = N := by
    have h1 := mpi_base_remainder N T
    have h2 : N.tmod T = 0 := Int.dvd_iff_tmod_eq_zero.mp hdiv
    omega
  have hn : 0 ≤ N.tdiv T := Int.tdiv_nonneg hN.le hT.le
  have hle := mul_le_mul_of_nonneg_right (by omega : t + 1 ≤ T) hn
  rw [hprod] at hle
  exact hle

/-- For a non-negative `N` below `2^31`, the product of a rank below `W` with the base share
`N / W` lies in `[0, N]`, and the 32-bit product is the exact one. -/
theorem rank_product_exact (N W i : ℤ) (hN : 0 ≤ N) (hN32 : N < 2 ^ 31) (hW : 1 ≤ W)
    (hi : 0 ≤ i) (hiW : i < W) :
    0 ≤ i * N.tdiv W ∧ i * N.tdiv W ≤ N ∧ int_mul i (N.tdiv W) = i * N.tdiv W := by
  have hn : 0 ≤ N.tdiv W := Int.tdiv_nonneg hN (by omega)
  have hr : 0 ≤ N.tmod W := Int.tmod_nonneg W hN
  have hsum := mpi_base_remainder N W
  have h0 : 0 ≤ i * N.tdiv W := mul_nonneg hi hn
  have hle : i * N.tdiv W ≤ W * N.tdiv W := mul_le_mul_of_nonneg_right hiW.le hn
  have hN' : i * N.tdiv W ≤ N := by omega
  refine ⟨h0, hN', ?_⟩
  unfold int_mul wrap32
  norm_num at hN32 ⊢
  omega

/-! ## Claims on the reduction, the partition bounds and the error term -/

/-- C11: the reduction adds every partial result exactly once and is order-independent. For
every `W ≥ 1` and every list of `W` partial results, the coordinator's `GLOBAL_SUM` of
riemann_mpi.c (rank 0's value, then the values of ranks `1..W-1` in ascending order) is the
sum of all `W` values; in exact arithmetic the same values accumulated in reverse order, or
in any permutation as the critical sections of riemann_omp.c may do, give the same total.
The loops of the two programs are these reductions, applied to the `LOCAL_SUM`s of the
ranks and to the `local_sum`s of the team's threads. -/
theorem c11_reduction_order_independent (sums : List ℚ) (hW : 1 ≤ sums.length) :
    RiemannMpi.gather (sums.getD 0 0) (fun i => sums.getD i.toNat 0) (sums.length : ℤ)
        = sums.sum
      ∧ RiemannMpi.gather (sums.reverse.getD 0 0) (fun i => sums.reverse.getD i.toNat 0)
          (sums.reverse.length : ℤ) = sums.sum
      ∧ RiemannOmp.critical_sections 0.0 sums.reverse = sums.sum
      ∧ (∀ order : List ℚ, order.Perm sums →
          RiemannOmp.critical_sections 0.0 order = sums.sum
            ∧ RiemannMpi.gather (order.getD 0 0) (fun i => order.getD i.toNat 0)
                (order.length : ℤ) = sums.sum)
      ∧ (∀ (N W : ℤ) (a b : ℚ),
          RiemannMpi.GLOBAL_SUM N W a b
            = RiemannMpi.gather (RiemannMpi.LOCAL_SUM N W 0 a b)
                (fun i => RiemannMpi.LOCAL_SUM N W i a b) W)
      ∧ (∀ (N T : ℤ) (a b : ℚ) (n : ℤ) (team : List ℤ), team.Perm (RiemannOmp.threads T) →
          RiemannOmp.parallel_region N team a b n 0.0
            = RiemannOmp.parallel_region N (RiemannOmp.threads T) a b n 0.0) := by
  have hzero : (0.0 : ℚ) = 0 := by norm_num
  have hperm : ∀ order : List ℚ, order.Perm sums →
      RiemannOmp.critical_sections 0.0 order = sums.sum
        ∧ RiemannMpi.gather (order.getD 0 0) (fun i => order.getD i.toNat 0)
            (order.length : ℤ) = sums.sum := by
    intro order horder
    constructor
    · rw [critical_sections_eq_sum, hzero, zero_add, horder.sum_eq]
    · rw [mpi_gather_eq_sum order (by rw [horder.length_eq]; exact hW), horder.sum_eq]
  refine ⟨mpi_gather_eq_sum sums hW, (hperm _ (List.reverse_perm sums)).2,
    (hperm _ (List.reverse_perm sums)).1, hperm, fun _ _ _ _ => rfl, ?_⟩
  intro N T a b n team hteam
  rw [omp_parallel_region_eq_critical_sections, omp_parallel_region_eq_critical_sections,
    critical_sections_eq_sum, critical_sections_eq_sum,
    (hteam.map (fun t => RiemannOmp.local_sum N t a b n)).sum_eq]

/-- Witness for C11: the three partial results `1, 2, 3`, and the order `3, 1, 2`. -/
theorem c11_reduction_order_independent_witness :
    1 ≤ [(1 : ℚ), 2, 3].length
      ∧ RiemannMpi.gather (([(1 : ℚ), 2, 3]).getD 0 0)
          (fun i => ([(1 : ℚ), 2, 3]).getD i.toNat 0) (([(1 : ℚ), 2, 3]).length : ℤ)
          = ([(1 : ℚ), 2, 3]).sum
      ∧ RiemannOmp.critical_sections 0.0 [(3 : ℚ), 1, 2] = ([(1 : ℚ), 2, 3]).sum :=
  have h := c11_reduction_order_independent [(1 : ℚ), 2, 3] (by decide)
  ⟨by decide, h.1,
    (h.2.2.2.1 [(3 : ℚ), 1, 2]
      ((List.Perm.swap 1 3 [2]).trans ((List.Perm.swap 2 3 []).cons 1))).1⟩

/-- C12: no idle worker when there is enough work. For every `N` and `W` with `N ≥ W > 0`,
every rank `0 ≤ i < W` gets `LOCAL_N(i) ≥ 1` from the partitioner of riemann_mpi.c; a rank
gets `LOCAL_N = 0` only if `N < W` and `i ≥ N`. -/
theorem c12_mpi_no_idle_worker (N W i : ℤ) (hW : 0 < W) (hi : 0 ≤ i) (_hiW : i < W) :
    (W ≤ N → 1 ≤ RiemannMpi.LOCAL_N N W i)
      ∧ (RiemannMpi.LOCAL_N N W i = 0 → N < W ∧ N ≤ i) := by
  refine ⟨fun hWN => mpi_LOCAL_N_pos N W i hW hWN, fun hzero => ?_⟩
  rcases Int.lt_or_le N 0 with hneg | hnonneg
  · omega
  · have hn : 0 ≤ N.tdiv W := Int.tdiv_nonneg hnonneg hW.le
    have hr : 0 ≤ N.tmod W := Int.tmod_nonneg W hnonneg
    have hrW : N.tmod W < W := Int.tmod_lt_of_pos N hW
    have hsum := mpi_base_remainder N W
    simp only [RiemannMpi.LOCAL_N] at hzero
    split_ifs at hzero with hlt
    · omega
    · rw [hzero, mul_zero, zero_add] at hsum
      omega

/-- Witness for C12: rank 2 of three ranks sharing ten trapezoids gets three of them. -/
theorem c12_mpi_no_idle_worker_witness :
    ((0 : ℤ) < 3 ∧ (0 : ℤ) ≤ 2 ∧ (2 : ℤ) < 3 ∧ (3 : ℤ) ≤ 10)
      ∧ 1 ≤ RiemannMpi.LOCAL_N 10 3 2 :=
  ⟨by decide, (c12_mpi_no_idle_worker 10 3 2 (by decide) (by decide) (by decide)).1 (by decide)⟩

/-- C15: exact error term of the sequential rule for `f(x) = x*x`. In exact arithmetic, for
every `a`, `b` and every `N ≥ 1`, `trapezoidal_sum(a, b)` of riemann.c equals
`(b^3 - a^3)/3 + (b - a)^3 / (6*N^2)`; hence for `a ≤ b` it is never below the true integral
`(b^3 - a^3)/3`, and its error is exactly `(b - a)^3 / (6*N^2)`. -/
theorem c15_seq_exact_error_term (a b : ℚ) (N : ℤ) (hN : 1 ≤ N) :
    Riemann.trapezoidal_sum N a b = (b ^ 3 - a ^ 3) / 3 + (b - a) ^ 3 / (6 * (N : ℚ) ^ 2)
      ∧ (a ≤ b → (b ^ 3 - a ^ 3) / 3 ≤ Riemann.trapezoidal_sum N a b)
      ∧ Riemann.trapezoidal_sum N a b - (b ^ 3 - a ^ 3) / 3
          = (b - a) ^ 3 / (6 * (N : ℚ) ^ 2) := by
  have hclosed := seq_trapezoidal_sum_closed N a b hN
  refine ⟨hclosed, fun hab => ?_, ?_⟩
  · have hNq : (0 : ℚ) < (N : ℚ) := by exact_mod_cast (by omega : 0 < N)
    have herr : 0 ≤ (b - a) ^ 3 / (6 * (N : ℚ) ^ 2) :=
      div_nonneg (pow_nonneg (by linarith) 3) (by positivity)
    rw [hclosed]
    linarith
  · rw [hclosed]
    ring

/-- Witness for C15: two trapezoids on `[0, 1]` give `1/3 + 1/24 = 3/8`. -/
theorem c15_seq_exact_error_term_witness :
    (1 : ℤ) ≤ 2
      ∧ Riemann.trapezoidal_sum 2 0 1
          = ((1 : ℚ) ^ 3 - 0 ^ 3) / 3 + (1 - 0) ^ 3 / (6 * ((2 : ℤ) : ℚ) ^ 2) :=
  ⟨by decide, (c15_seq_exact_error_term 0 1 2 (by decide)).1⟩

/-- C16: the upper-bound adjustment of riemann_omp.c is a no-op on forward intervals. In exact
arithmetic, for every `a ≤ b`, every `N > 0`, every thread count `T > 0` dividing `N` and
every thread index `0 ≤ t < T`, the value `local_b = local_a + local_n*h` computed with
`local_n = N/T` satisfies `local_b ≤ b`, so `if (local_b > param_b) local_b = param_b` does
not change it, and thread `t`'s `local_b` is thread `t+1`'s `local_a`. -/
theorem c16_omp_clamp_noop_forward (a b : ℚ) (N T t : ℤ) (hab : a ≤ b) (hN : 0 < N)
    (hT : 0 < T) (hdiv : T ∣ N) (_ht0 : 0 ≤ t) (htT : t < T) :
    RiemannOmp.local_b_computed N t a b (N.tdiv T) ≤ b
      ∧ RiemannOmp.local_b N t a b (N.tdiv T) = RiemannOmp.local_b_computed N t a b (N.tdiv T)
      ∧ RiemannOmp.local_b N t a b (N.tdiv T) = RiemannOmp.local_a N (t + 1) a b (N.tdiv T) := by
  have hend := omp_segment_end_le N T t hN hT hdiv htT
  have hsame := omp_local_b_unadjusted N t a b (N.tdiv T) hab hN hend
  refine ⟨?_, hsame, ?_⟩
  · by_contra hgt
    have hclamp : RiemannOmp.local_b N t a b (N.tdiv T) = b := by
      unfold RiemannOmp.local_b
      rw [if_pos (not_le.mp hgt)]
    rw [hsame] at hclamp
    exact hgt hclamp.le
  · rw [hsame, omp_local_b_computed_eq_next]

/-- Witness for C16: thread 1 of four threads on `[0, 1]` with twelve trapezoids ends at
`1/2`, where thread 2 starts. -/
theorem c16_omp_clamp_noop_forward_witness :
    ((0 : ℚ) ≤ 1 ∧ (0 : ℤ) < 12 ∧ (0 : ℤ) < 4 ∧ (4 : ℤ) ∣ 12 ∧ (0 : ℤ) ≤ 1 ∧ (1 : ℤ) < 4)
      ∧ RiemannOmp.local_b_computed 12 1 0 1 ((12 : ℤ).tdiv 4) ≤ 1
      ∧ RiemannOmp.local_b 12 1 0 1 ((12 : ℤ).tdiv 4)
          = RiemannOmp.local_b_computed 12 1 0 1 ((12 : ℤ).tdiv 4)
      ∧ RiemannOmp.local_b 12 1 0 1 ((12 : ℤ).tdiv 4)
          = RiemannOmp.local_a 12 (1 + 1) 0 1 ((12 : ℤ).tdiv 4) :=
  ⟨⟨by norm_num, by decide, by decide, by decide, by decide, by decide⟩,
    c16_omp_clamp_noop_forward 0 1 12 4 1 (by norm_num) (by decide) (by decide) (by decide)
      (by decide) (by decide)⟩

/-- C17: no signed 32-bit overflow in the partition offsets. For `N = 100000000`, every
worker count `W ≥ 1` and every worker index `0 ≤ i < W`, the `int` product
`PROCESS_RANK * (N / CLUSTER_SIZE)` of riemann_mpi.c and the `int` product
`omp_get_thread_num() * local_n` (`local_n = N / W`) of riemann_omp.c both lie in `[0, N]`,
so the 32-bit product equals the mathematical one. -/
theorem c17_partition_offsets_no_overflow (W i : ℤ) (hW : 1 ≤ W) (hi : 0 ≤ i) (hiW : i < W) :
    (0 ≤ i * RiemannMpi.N.tdiv W ∧ i * RiemannMpi.N.tdiv W ≤ RiemannMpi.N
        ∧ int_mul i (RiemannMpi.N.tdiv W) = i * RiemannMpi.N.tdiv W)
      ∧ (0 ≤ i * RiemannOmp.N.tdiv W ∧ i * RiemannOmp.N.tdiv W ≤ RiemannOmp.N
        ∧ int_mul i (RiemannOmp.N.tdiv W) = i * RiemannOmp.N.tdiv W) :=
  ⟨rank_product_exact RiemannMpi.N W i (by decide) (by decide) hW hi hiW,
    rank_product_exact RiemannOmp.N W i (by decide) (by decide) hW hi hiW⟩

/-- Witness for C17: rank 6 of seven workers; the product is `6 * 14285714 = 85714284`. -/
theorem c17_partition_offsets_no_overflow_witness :
    ((1 : ℤ) ≤ 7 ∧ (0 : ℤ) ≤ 6 ∧ (6 : ℤ) < 7)
      ∧ int_mul 6 (RiemannMpi.N.tdiv 7) = 6 * RiemannMpi.N.tdiv 7
      ∧ int_mul 6 (RiemannOmp.N.tdiv 7) = 6 * RiemannOmp.N.tdiv 7 :=
  have h := c17_partition_offsets_no_overflow 7 6 (by decide) (by decide) (by decide)
  ⟨by decide, h.1.2.2, h.2.2.2⟩

/-! ## The `main` functions, case by case -/

/-- Function `main` of riemann.c as a cascade of its three checks. -/
theorem seq_main_cases (env : Env) (argv : List String) :
    Riemann.main env argv =
      if (argv.length : ℤ) < 3 then
        ⟨1,
          [⟨"\nNot enough arguments passed: %d\n", [.int argv.length]⟩,
           ⟨"Usage: %s <limit a> <limit b>\n", [.str (argv.getD 0 "")]⟩],
          none⟩
      else if (env.strtod (argv.getD 1 "")).2 ≠ "" then
        ⟨1, [⟨"Invalid first argument: %s. Please enter a number.\n", [.str (argv.getD 1 "")]⟩],
          none⟩
      else if (env.strtod (argv.getD 2 "")).2 ≠ "" then
        ⟨1, [⟨"Invalid second argument: %s. Please enter a number.\n", [.str (argv.getD 2 "")]⟩],
          none⟩
      else
        ⟨0,
          [⟨Spec.result_line,
              [.int Riemann.N, .dbl (env.strtod (argv.getD 1 "")).1,
               .dbl (env.strtod (argv.getD 2 "")).1,
               .dbl (Riemann.trapezoidal_sum Riemann.N (env.strtod (argv.getD 1 "")).1
                      (env.strtod (argv.getD 2 "")).1)]⟩,
           ⟨Spec.time_line, [.dbl env.elapsed]⟩],
          some (Riemann.trapezoidal_sum Riemann.N (env.strtod (argv.getD 1 "")).1
                  (env.strtod (argv.getD 2 "")).1)⟩ := rfl

/-- Function `main` of riemann_mpi.c at rank 0 as a cascade of its three checks. -/
theorem mpi_main_cases (env : Env) (W : ℤ) (argv : List String) :
    RiemannMpi.main env W argv =
      if (argv.length : ℤ) < 3 then
        ⟨1,
          [⟨"\nNot enough arguments passed: %d\n", [.int argv.length]⟩,
           ⟨"Usage: %s <limit a> <limit b>\n", [.str (argv.getD 0 "")]⟩],
          none⟩
      else if (env.strtod (argv.getD 1 "")).2 ≠ "" then
        ⟨1, [⟨"Invalid first argument: %s. Please enter a number.\n", [.str (argv.getD 1 "")]⟩],
          none⟩
      else if (env.strtod (argv.getD 2 "")).2 ≠ "" then
        ⟨1, [⟨"Invalid second argument: %s. Please enter a number.\n", [.str (argv.getD 2 "")]⟩],
          none⟩
      else
        ⟨0,
          [⟨"With n = %d, the approximation of the integral from a = %.2f to b = %.2f is %.6f\n",
              [.int RiemannMpi.N, .dbl (env.strtod (argv.getD 1 "")).1,
               .dbl (env.strtod (argv.getD 2 "")).1,
               .dbl (RiemannMpi.GLOBAL_SUM RiemannMpi.N W (env.strtod (argv.getD 1 "")).1
                      (env.strtod (argv.getD 2 "")).1)]⟩,
           ⟨Spec.time_line, [.dbl env.elapsed]⟩],
          some (RiemannMpi.GLOBAL_SUM RiemannMpi.N W (env.strtod (argv.getD 1 "")).1
                  (env.strtod (argv.getD 2 "")).1)⟩ := rfl

/-- The three argument checks that open `main` of riemann_omp.c. -/
theorem omp_main_rejects (env : Env) (argv : List String) :
    ((argv.length : ℤ) < 4 →
        RiemannOmp.main env argv
          = .exited 1
              [⟨"\nNot enough arguments passed: %d\n", [.int argv.length]⟩,
               ⟨"Usage: %s <limit a> <limit b> <threads>\n", [.str (argv.getD 0 "")]⟩]
              0.0 false)
      ∧ (¬ (argv.length : ℤ) < 4 → (env.strtod (argv.getD 1 "")).2 ≠ "" →
        RiemannOmp.main env argv
          = .exited 1
              [⟨"Invalid first argument: %s. Please enter a number.\n",
                [.str (argv.getD 1 "")]⟩]
              0.0 false)
      ∧ (¬ (argv.length : ℤ) < 4 → (env.strtod (argv.getD 1 "")).2 = "" →
          (env.strtod (argv.getD 2 "")).2 ≠ "" →
        RiemannOmp.main env argv
          = .exited 1
              [⟨"Invalid second argument: %s. Please enter a number.\n",
                [.str (argv.getD 2 "")]⟩]
              0.0 false) := by
  refine ⟨fun h => ?_, fun h ha => ?_, fun h ha hb => ?_⟩
  · simp only [RiemannOmp.main, if_pos h]
  · simp only [RiemannOmp.main, if_neg h]
    rw [if_pos ha]
  · simp only [RiemannOmp.main, if_neg h]
    rw [if_neg (not_not.mpr ha), if_pos hb]

/-! ## Claims on argument validation and on the output -/

/-- C13, evaluated where it fails: both `main` functions validate an argument only by
`*endptr != '\0'` and never check that `strtod` converted anything (`endptr == argv[i]`). On
the empty argument `strtod` converts nothing, returns `0` and leaves `endptr` at the
terminator, so the check passes. The runs `./riemann "" 1` and `./riemann_omp "" 1 4`
therefore go on to integrate over `[0, 1]` and return 0 instead of 1, although the first
argument is not a fully-parseable real number (the second, `1`, is). -/
theorem c13_empty_argument_accepted :
    ¬ Spec.fully_parseable Sample.env ""
      ∧ Spec.fully_parseable Sample.env "1"
      ∧ (Riemann.main Sample.env ["./riemann", "", "1"]).status = 0
      ∧ (Riemann.main Sample.env ["./riemann", "", "1"]).result
          = some (Riemann.trapezoidal_sum Riemann.N 0 1)
      ∧ ∃ stdout sum_result,
          RiemannOmp.main Sample.env ["./riemann_omp", "", "1", "4"]
            = .exited 0 stdout sum_result true := by
  refine ⟨fun h => h.2 (by decide), ⟨by decide, by decide⟩, ?_, ?_, ?_⟩
  · rw [seq_main_cases]
    decide
  · rw [seq_main_cases, if_neg (by decide), if_neg (by decide), if_neg (by decide)]
    simp [Sample.env, Sample.strtod, Sample.strtol, Sample.digits]
  · have hmain := omp_main_after_parsing Sample.env ["./riemann_omp", "", "1", "4"] 0 1 4
      (by decide) (by decide) (by decide) (by decide)
    rw [if_neg (by decide), if_neg (by decide)] at hmain
    exact ⟨_, _, hmain⟩

/-- What the argument checks of riemann.c and riemann_omp.c do catch: both `main` functions
return exit status 1 without calling `trapezoidal_sum` whenever too few arguments are given
(`argc < 3`, respectively `argc < 4`), or whenever `strtod` leaves unconverted characters in
argument `a` or in argument `b`; `a` is checked before `b`: with enough arguments and
unconverted characters in `a`, the message is the one for the first argument whatever `b`
is. -/
theorem main_rejects_unconverted_arguments (env : Env) (argv : List String) :
    ((argv.length < 3 ∨ (env.strtod (argv.getD 1 "")).2 ≠ ""
          ∨ (env.strtod (argv.getD 2 "")).2 ≠ "") →
        (Riemann.main env argv).status = 1 ∧ (Riemann.main env argv).result = none)
      ∧ ((argv.length < 4 ∨ (env.strtod (argv.getD 1 "")).2 ≠ ""
          ∨ (env.strtod (argv.getD 2 "")).2 ≠ "") →
        ∃ stdout, RiemannOmp.main env argv = .exited 1 stdout 0.0 false)
      ∧ (3 ≤ argv.length → (env.strtod (argv.getD 1 "")).2 ≠ "" →
        Riemann.main env argv
          = ⟨1, [⟨"Invalid first argument: %s. Please enter a number.\n",
                  [.str (argv.getD 1 "")]⟩], none⟩)
      ∧ (4 ≤ argv.length → (env.strtod (argv.getD 1 "")).2 ≠ "" →
        RiemannOmp.main env argv
          = .exited 1
              [⟨"Invalid first argument: %s. Please enter a number.\n",
                [.str (argv.getD 1 "")]⟩]
              0.0 false) := by
  have homp := omp_main_rejects env argv
  refine ⟨fun h => ?_, fun h => ?_, fun h3 ha => ?_, fun h4 ha => ?_⟩
  · rw [seq_main_cases]
    by_cases hlen : (argv.length : ℤ) < 3
    · rw [if_pos hlen]
      exact ⟨rfl, rfl⟩
    · rw [if_neg hlen]
      by_cases ha : (env.strtod (argv.getD 1 "")).2 ≠ ""
      · rw [if_pos ha]
        exact ⟨rfl, rfl⟩
      · rw [if_neg ha]
        have hb : (env.strtod (argv.getD 2 "")).2 ≠ "" := by
          rcases h with h | h | h
          · exact absurd (by omega : (argv.length : ℤ) < 3) hlen
          · exact absurd h ha
          · exact h
        rw [if_pos hb]
        exact ⟨rfl, rfl⟩
  · by_cases hlen : (argv.length : ℤ) < 4
    · exact ⟨_, homp.1 hlen⟩
    · by_cases ha : (env.strtod (argv.getD 1 "")).2 ≠ ""
      · exact ⟨_, homp.2.1 hlen ha⟩
      · have hb : (env.strtod (argv.getD 2 "")).2 ≠ "" := by
          rcases h with h | h | h
          · exact absurd (by omega : (argv.length : ℤ) < 4) hlen
          · exact absurd h ha
          · exact h
        exact ⟨_, homp.2.2 hlen (not_not.mp ha) hb⟩
  · rw [seq_main_cases, if_neg (by omega), if_pos ha]
  · exact homp.2.1 (by omega) ha

/-- The runs `./riemann abc 1x 4` and `./riemann_omp abc 1x 4`: the sample `strtod` converts
nothing of `abc`, and both runs stop at the first argument. -/
theorem main_rejects_unconverted_arguments_example :
    (3 ≤ ["./riemann", "abc", "1x", "4"].length ∧ 4 ≤ ["./riemann", "abc", "1x", "4"].length
        ∧ (Sample.env.strtod "abc").2 ≠ "" ∧ (Sample.env.strtod "1x").2 ≠ "")
      ∧ Riemann.main Sample.env ["./riemann", "abc", "1x", "4"]
          = ⟨1, [⟨"Invalid first argument: %s. Please enter a number.\n", [.str "abc"]⟩], none⟩
      ∧ RiemannOmp.main Sample.env ["./riemann", "abc", "1x", "4"]
          = .exited 1 [⟨"Invalid first argument: %s. Please enter a number.\n", [.str "abc"]⟩]
              0.0 false :=
  have h := main_rejects_unconverted_arguments Sample.env ["./riemann", "abc", "1x", "4"]
  ⟨⟨by decide, by decide, by decide, by decide⟩, h.2.2.1 (by decide) (by decide),
    h.2.2.2 (by decide) (by decide)⟩

/-- C14 as stated fails for the distributed coordinator: on the successful run
`mpirun -np 4 ./riemann_mpi 0 1`, rank 0 prints the result line with the format
`With n = %d, the approximation of the integral from a = %.2f to b = %.2f is %.6f`, without
the word `point` before `a` and `b`, which is not the result line of the stdout contract. -/
theorem c14_mpi_result_line_differs :
    (RiemannMpi.main Sample.env 4 ["./riemann_mpi", "0", "1"]).status = 0
      ∧ (RiemannMpi.main Sample.env 4 ["./riemann_mpi", "0", "1"]).stdout.map Printf.fmt
          = ["With n = %d, the approximation of the integral from a = %.2f to b = %.2f is %.6f\n",
             "Execution time: %.6f seconds\n"]
      ∧ (RiemannMpi.main Sample.env 4 ["./riemann_mpi", "0", "1"]).stdout.map Printf.fmt
          ≠ [Spec.result_line, Spec.time_line] := by
  have hmain := mpi_main_cases Sample.env 4 ["./riemann_mpi", "0", "1"]
  rw [if_neg (by decide), if_neg (by decide), if_neg (by decide)] at hmain
  rw [hmain]
  refine ⟨rfl, rfl, ?_⟩
  simp only [List.map_cons, List.map_nil]
  decide

/-- C14, amended: on success the sequential and the shared-memory executables print the
result line `With n = <N>, the approximation of the integral from point a = <a> to point
b = <b> is <result>` (`a`, `b` with two decimals, the result with six), and the distributed
coordinator prints `With n = <N>, the approximation of the integral from a = <a> to
b = <b> is <result>` (same precisions); each is followed by the line
`Execution time: <seconds> seconds` (six decimals), and nothing else is printed. -/
theorem c14_stdout_result_line (env : Env) (argv : List String) (a b : ℚ)
    (hargc : 3 ≤ argv.length)
    (ha : env.strtod (argv.getD 1 "") = (a, ""))
    (hb : env.strtod (argv.getD 2 "") = (b, "")) :
    Riemann.main env argv
        = ⟨0,
            [⟨Spec.result_line,
                [.int Riemann.N, .dbl a, .dbl b, .dbl (Riemann.trapezoidal_sum Riemann.N a b)]⟩,
             ⟨Spec.time_line, [.dbl env.elapsed]⟩],
            some (Riemann.trapezoidal_sum Riemann.N a b)⟩
      ∧ (∀ parsed : ℤ, 4 ≤ argv.length → env.strtol (argv.getD 3 "") = (parsed, "") →
          wrap32 parsed ≠ 0 → wrap32 parsed ∣ RiemannOmp.N →
          RiemannOmp.main env argv
            = .exited 0
                [⟨Spec.result_line,
                    [.int RiemannOmp.N, .dbl a, .dbl b,
                     .dbl (RiemannOmp.parallel_region RiemannOmp.N (env.team (wrap32 parsed))
                            a b (RiemannOmp.N.tdiv (wrap32 parsed)) 0.0)]⟩,
                 ⟨Spec.time_line, [.dbl env.elapsed]⟩]
                (RiemannOmp.parallel_region RiemannOmp.N (env.team (wrap32 parsed)) a b
                  (RiemannOmp.N.tdiv (wrap32 parsed)) 0.0)
                true)
      ∧ (∀ W : ℤ,
          RiemannMpi.main env W argv
            = ⟨0,
                [⟨"With n = %d, the approximation of the integral from a = %.2f to b = %.2f is %.6f\n",
                    [.int RiemannMpi.N, .dbl a, .dbl b,
                     .dbl (RiemannMpi.GLOBAL_SUM RiemannMpi.N W a b)]⟩,
                 ⟨Spec.time_line, [.dbl env.elapsed]⟩],
                some (RiemannMpi.GLOBAL_SUM RiemannMpi.N W a b)⟩) := by
  have hlen : ¬ (argv.length : ℤ) < 3 := by omega
  refine ⟨?_, fun parsed h4 ht hT0 hdiv => ?_, fun W => ?_⟩
  · rw [seq_main_cases, if_neg hlen, ha, hb]
    simp
  · have hmain := omp_main_after_parsing env argv a b parsed h4 ha hb ht
    rw [if_neg hT0, if_neg (not_not.mpr (Int.dvd_iff_tmod_eq_zero.mp hdiv))] at hmain
    exact hmain
  · rw [mpi_main_cases, if_neg hlen, ha, hb]
    simp

/-- Witness for C14 (amended): the arguments `0 1 4` in the sample environment, for the three
executables (the coordinator in a communicator of four processes). -/
theorem c14_stdout_result_line_witness :
    (3 ≤ ["./riemann", "0", "1", "4"].length
        ∧ Sample.env.strtod "0" = (0, "") ∧ Sample.env.strtod "1" = (1, ""))
      ∧ (Riemann.main Sample.env ["./riemann", "0", "1", "4"]).stdout.map Printf.fmt
          = [Spec.result_line, Spec.time_line]
      ∧ (RiemannMpi.main Sample.env 4 ["./riemann", "0", "1", "4"]).stdout.map Printf.fmt
          = ["With n = %d, the approximation of the integral from a = %.2f to b = %.2f is %.6f\n",
             Spec.time_line]
      ∧ ∃ args sum_result, RiemannOmp.main Sample.env ["./riemann", "0", "1", "4"]
          = .exited 0 [⟨Spec.result_line, args⟩, ⟨Spec.time_line, [.dbl 0]⟩] sum_result true :=
  have h := c14_stdout_result_line Sample.env ["./riemann", "0", "1", "4"] 0 1 (by decide)
    (by decide) (by decide)
  ⟨⟨by decide, by decide, by decide⟩, by rw [h.1]; rfl, by rw [h.2.2 4]; rfl,
    ⟨_, _, h.2.1 4 (by decide) (by decide) (by decide) (by decide)⟩⟩

